import Mathlib

/-!
# DSP-Testbench: the spectral analyser stage `FftProcessor<Order>`

A shallow embedding of `Source/FftProcessor.h`.

* C++ `int` values are mathematical integers reduced to 32-bit two's complement
  (`toInt32`); `juce::uint32` values are naturals below `2 ^ 32`.
* `float` arithmetic is kept abstract: an `Env F` supplies the constants and the
  operations on the sample type `F`, the coefficient tables of
  `dsp::WindowingFunction<float>::fillWindowingTables` and the in-place transform
  `dsp::FFT::performFrequencyOnlyForwardTransform`, none of which is defined in the
  repository. Every theorem holds for every such environment.
* Buffers are lists; an access outside a buffer, a null probe and a negative buffer size
  are undefined behaviour in the source and make the embedded operation return `none`.
* An `FftFrame` is `alignas(16) float f[1 << Order]`: the object spans `frameExtent`
  floats (its size is a multiple of 16 bytes, so 4 floats even when `f` has 1 or 2) and
  must start on a 16-byte boundary. The sample data of a buffer starts on such a boundary,
  so a frame object read at an offset lies on one exactly when the offset is a multiple of
  4 floats.
* A probe is a heap object. Each allocation has a serial number (`nextProbe` is the
  allocation counter), which names the object for ever; the pointer to the object is the
  address `Env.address` gives for that serial number. Addresses of different objects may
  coincide, as when `new` hands back the address of a deleted object.
-/

namespace DspTestbench

/-! ## Machine integers -/

/-- The value a 32-bit two's complement `int` holds for the mathematical integer `x`. -/
def toInt32 (x : Int) : Int := (x + 2147483648) % 4294967296 - 2147483648

/-- C++ `static_cast<int> (u)` for a `juce::uint32` value `u`. -/
def staticCastInt (u : Nat) : Int := toInt32 (Int.ofNat (u % 4294967296))

/-- C++ `static_cast<size_t> (x)` for an `int` value `x` (64-bit `size_t`). -/
def staticCastSizeT (x : Int) : Nat := (x % 18446744073709551616).toNat

/-- The C++ expression `1 << Order`, of type `int`. -/
def shiftLeftOne (order : Nat) : Int := toInt32 (2 ^ order)

/-! ## The environment: JUCE numerics that the repository only calls -/

/-- Enumeration `dsp::WindowingFunction<float>::WindowingMethod`. -/
inductive WindowingMethod where
  | rectangular
  | triangular
  | hann
  | hamming
  | blackman
  | blackmanHarris
  | flatTop
  | kaiser
deriving DecidableEq

/-- Arithmetic on the sample type `F` (C++ `float`) together with the two JUCE numeric
routines the processor calls: `coefficient m n i` is entry `i` of the table that
`fillWindowingTables` writes for method `m` and table size `n`; `transform order` is
`dsp::FFT (order).performFrequencyOnlyForwardTransform`, an in-place routine, so the
buffer keeps its length; `address k` is the address `operator new` returns for the
allocation with serial number `k`. -/
structure Env (F : Type) where
  zero : F
  one : F
  two : F
  add : F → F → F
  mul : F → F → F
  div : F → F → F
  mul_comm : ∀ a b : F, mul a b = mul b a
  coefficient : WindowingMethod → Nat → Nat → F
  transform : Nat → List F → List F
  transform_length : ∀ (order : Nat) (s : List F), (transform order s).length = s.length
  address : Nat → Nat

/-! ## Listeners and probes -/

/-- A pointer `AudioProbe<FftFrame>::Listener*`, compared by identity. -/
abbrev Listener := Nat

/-- JUCE `ListenerList::add`: the listener is appended unless it is already in the list. -/
def listenerListAdd (ls : List Listener) (l : Listener) : List Listener :=
  if l ∈ ls then ls else ls ++ [l]

/-- JUCE `ListenerList::remove`: the first occurrence of the listener is removed. -/
def listenerListRemove (ls : List Listener) (l : Listener) : List Listener :=
  ls.erase l

/-- Modelled from the spec: `AudioProbe<FftFrame>` is declared in `AudioDataTransfer.h`,
which is not among the sources. Following the spec (Cross-Thread Frame Probe,
ProbeBuffer) a probe holds the most recently published frame, if any, a generation
counter, and the listeners registered for its notifications. -/
structure AudioProbe (F : Type) where
  frame : Option (List F)
  generation : Nat
  listeners : List Listener
deriving DecidableEq

namespace AudioProbe

variable {F : Type}

/-- Modelled from the spec: a probe as `new AudioProbe<FftFrame>()` creates it, with
nothing published and no listener. -/
def create : AudioProbe F := { frame := none, generation := 0, listeners := [] }

/-- Modelled from the spec: `writeFrame` publishes a complete frame under a new
generation. -/
def writeFrame (p : AudioProbe F) (f : List F) : AudioProbe F :=
  { p with frame := some f, generation := p.generation + 1 }

/-- Modelled from the spec: `copyFrame` copies out the most recently published complete
frame. -/
def copyFrame (p : AudioProbe F) : Option (List F) := p.frame

/-- Modelled from the spec: `addListener` registers a notification target on the probe. -/
def addListener (p : AudioProbe F) (l : Listener) : AudioProbe F :=
  { p with listeners := listenerListAdd p.listeners l }

end AudioProbe

/-- An element of `OwnedArray<AudioProbe<FftFrame>>`: the heap object the array owns,
named by the serial number `ref` of its allocation, and its contents. The pointer the
array holds is the address of that allocation, `Env.address ref`. -/
structure OwnedProbe (F : Type) where
  ref : Nat
  obj : AudioProbe F
deriving DecidableEq

/-- JUCE `OwnedArray::operator[] (int)`: the element, or a null pointer when the index is
negative or not below the number of elements. -/
def probeAt {F : Type} (arr : List (OwnedProbe F)) (index : Int) : Option (OwnedProbe F) :=
  if 0 ≤ index then arr[index.toNat]? else none

/-! ## The processor -/

/-- Structure `dsp::ProcessSpec`, reduced to the member the processor reads
(`uint32 numChannels`). -/
structure ProcessSpec where
  numChannels : Nat

/-- Number of `float`s in the member `f` of an `FftFrame`: the array bound `1 << Order`. -/
def frameLength (order : Nat) : Nat := (shiftLeftOne order).toNat

/-- Number of `float`s an `FftFrame` object spans, `sizeof (FftFrame) / sizeof (float)`:
`alignas(16)` rounds the size of the object up to a multiple of 16 bytes, 4 floats. -/
def frameExtent (order : Nat) : Nat := (frameLength order + 3) / 4 * 4

/-- Data members of `FftProcessor<Order>`, with those of its base `FixedBlockProcessor`
that the class uses (`maxBlockSize`, `buffer`) and the allocation counter `nextProbe`. -/
structure FftProcessor (F : Type) where
  order : Nat
  maxBlockSize : Int
  buffer : List (List F)
  size : Int
  temp : List F
  window : List F
  amplitudeCorrectionFactor : F
  freqProbes : List (OwnedProbe F)
  phaseProbes : List (OwnedProbe F)
  listeners : List Listener
  nextProbe : Nat
deriving DecidableEq

/-- JUCE `AudioSampleBuffer::setSize (1, n)`: one channel of `n` samples, taken as
cleared (the constructor overwrites the whole window before it is read); a negative `n`
violates the precondition of the call. -/
def setSize {F : Type} (E : Env F) (n : Int) : Option (List F) :=
  if 0 ≤ n then some (List.replicate n.toNat E.zero) else none

/-- The `size` coefficients of a windowing method, in table order. -/
def windowTable {F : Type} (E : Env F) (method : WindowingMethod) (size : Nat) : List F :=
  (List.range size).map (E.coefficient method size)

/-- JUCE `fillWindowingTables (samples, size, method)`: writes the `size` coefficients of
`method` to `samples[0 .. size)`. -/
def fillWindowingTables {F : Type} (E : Env F) (samples : List F) (size : Nat)
    (method : WindowingMethod) : Option (List F) :=
  if size ≤ samples.length then
    some (windowTable E method size ++ samples.drop size)
  else none

/-- The loop `for (i = 0; i < size; ++i) windowIntegral += window[i]`: `count` iterations
remain, `i` is the loop index and `acc` the value of `windowIntegral`. -/
def windowIntegralLoop {F : Type} (E : Env F) (window : List F) :
    Nat → Nat → F → Option F
  | 0, _, acc => some acc
  | count + 1, i, acc =>
    match window[i]? with
    | some x => windowIntegralLoop E window count (i + 1) (E.add acc x)
    | none => none

namespace FftProcessor

variable {F : Type}

/-- Method `FftProcessor<Order>::setWindowingMethod`. The parameter is unnamed in the source
and the table is filled for `windowType = hann`. -/
def setWindowingMethod (E : Env F) (σ : FftProcessor F) (_method : WindowingMethod) :
    Option (FftProcessor F) :=
  let windowType := WindowingMethod.hann
  match fillWindowingTables E σ.window (staticCastSizeT σ.size) windowType with
  | none => none
  | some w =>
    match windowIntegralLoop E w σ.size.toNat 0 E.zero with
    | none => none
    | some windowIntegral =>
      some { σ with window := w, amplitudeCorrectionFactor := E.div E.two windowIntegral }

/-- Modelled from the spec: the constructor `FixedBlockProcessor (maximumBlockSize)` of
`AudioDataTransfer.h` (not among the sources) records the fixed block size; nothing is
accumulated before the first prepare. The remaining members are those of a
default-constructed `FftProcessor`. -/
def initial (E : Env F) (order : Nat) : FftProcessor F :=
  { order := order
    maxBlockSize := shiftLeftOne order
    buffer := []
    size := shiftLeftOne order
    temp := []
    window := []
    amplitudeCorrectionFactor := E.one
    freqProbes := []
    phaseProbes := []
    listeners := []
    nextProbe := 0 }

/-- Constructor `FftProcessor<Order>::FftProcessor ()`. -/
def construct (E : Env F) (order : Nat) : Option (FftProcessor F) :=
  let σ := initial E order
  match setSize E (toInt32 (σ.size * 2)) with
  | none => none
  | some t =>
    match setSize E σ.size with
    | none => none
    | some w => setWindowingMethod E { σ with temp := t, window := w } WindowingMethod.hann

/-- Modelled from the spec: `FixedBlockProcessor::prepare` of `AudioDataTransfer.h` (not
among the sources) reallocates the accumulation buffer, one channel of the fixed block
size per channel of the spec. -/
def prepareBase (E : Env F) (σ : FftProcessor F) (spec : ProcessSpec) : FftProcessor F :=
  { σ with buffer := List.replicate spec.numChannels
                       (List.replicate σ.maxBlockSize.toNat E.zero) }

/-- Modelled from the spec: the writes of `FixedBlockProcessor::appendData` of
`AudioDataTransfer.h` (not among the sources) to the accumulation buffer; the samples
the host delivers are arbitrary. -/
def accumulate (σ : FftProcessor F) (samples : List (List F)) : FftProcessor F :=
  { σ with buffer := samples }

/-- One iteration of the loop of `prepare` that adds the probes of a channel. -/
def addChannelProbes (σ : FftProcessor F) : FftProcessor F :=
  { σ with
    freqProbes := σ.freqProbes ++ [{ ref := σ.nextProbe, obj := AudioProbe.create }]
    phaseProbes := σ.phaseProbes ++ [{ ref := σ.nextProbe + 1, obj := AudioProbe.create }]
    nextProbe := σ.nextProbe + 2 }

/-- The loop `for (ch = 0; ch < numChannels; ++ch)` of `prepare`, with `count` iterations
remaining. -/
def addProbesLoop : Nat → FftProcessor F → FftProcessor F
  | 0, σ => σ
  | count + 1, σ => addProbesLoop count (addChannelProbes σ)

/-- The call `probes[index]->addListener (l)` on an array of probes. -/
def attachListener (arr : List (OwnedProbe F)) (index : Int) (l : Listener) :
    Option (List (OwnedProbe F)) :=
  match probeAt arr index with
  | none => none
  | some p => some (arr.set index.toNat { p with obj := p.obj.addListener l })

/-- The loop `for (i = 0; i < listeners.size(); ++i)` of `prepare` over the listeners that
remain to be attached. -/
def wireListenersLoop (lastChannel : Int) :
    List Listener → FftProcessor F → Option (FftProcessor F)
  | [], σ => some σ
  | l :: rest, σ =>
    match attachListener σ.freqProbes lastChannel l with
    | none => none
    | some fp =>
      match attachListener σ.phaseProbes lastChannel l with
      | none => none
      | some pp =>
        wireListenersLoop lastChannel rest { σ with freqProbes := fp, phaseProbes := pp }

/-- The statements of `prepare` up to the end of its first loop: the base class is
prepared, both probe arrays are cleared (which deletes the probes they own) and the
probes of every channel are added. -/
def allocateProbes (E : Env F) (σ : FftProcessor F) (spec : ProcessSpec) : FftProcessor F :=
  let σ1 := prepareBase E σ spec
  let σ2 := { σ1 with freqProbes := [], phaseProbes := [] }
  addProbesLoop (staticCastInt spec.numChannels).toNat σ2

/-- The local `lastChannel = static_cast<int> (spec.numChannels) - 1` of `prepare`. -/
def lastChannel (spec : ProcessSpec) : Int := toInt32 (staticCastInt spec.numChannels - 1)

/-- Method `FftProcessor<Order>::prepare`. -/
def prepare (E : Env F) (σ : FftProcessor F) (spec : ProcessSpec) :
    Option (FftProcessor F) :=
  let σ3 := allocateProbes E σ spec
  wireListenersLoop (lastChannel spec) σ3.listeners σ3

/-- JUCE `AudioBuffer::getReadPointer (channel)`. -/
def readChannel (buffer : List (List F)) (channel : Int) : Option (List F) :=
  if 0 ≤ channel then buffer[channel.toNat]? else none

/-- JUCE `AudioBuffer::copyFrom (0, 0, source, numSamples)`. -/
def copyFrom (dest source : List F) (numSamples : Nat) : Option (List F) :=
  if numSamples ≤ source.length ∧ numSamples ≤ dest.length then
    some (source.take numSamples ++ dest.drop numSamples)
  else none

/-- JUCE `FloatVectorOperations::multiply (dest, src, num)`: `dest[i] *= src[i]`. -/
def multiplyBy (E : Env F) (dest src : List F) (num : Nat) : Option (List F) :=
  if num ≤ src.length ∧ num ≤ dest.length then
    some (List.zipWith E.mul (dest.take num) (src.take num) ++ dest.drop num)
  else none

/-- JUCE `FloatVectorOperations::multiply (dest, multiplier, num)`: `dest[i] *= multiplier`. -/
def multiplyScalar (E : Env F) (dest : List F) (multiplier : F) (num : Nat) :
    Option (List F) :=
  if num ≤ dest.length then
    some ((dest.take num).map (fun x => E.mul x multiplier) ++ dest.drop num)
  else none

/-- The frame object `*reinterpret_cast<const FftFrame*> (data + offset)`: the
`frameExtent` floats from `offset` on. The object has to start on a 16-byte boundary,
that is at a multiple of 4 floats from the start of the data, and to lie inside the
buffer. -/
def readFrame (data : List F) (offset order : Nat) : Option (List F) :=
  if offset % 4 = 0 ∧ offset + frameExtent order ≤ data.length then
    some ((data.drop offset).take (frameExtent order))
  else none

/-- The call `probes[channel]->writeFrame (frame)` on an array of probes. -/
def writeProbe (arr : List (OwnedProbe F)) (channel : Int) (frame : List F) :
    Option (List (OwnedProbe F)) :=
  match probeAt arr channel with
  | none => none
  | some p => some (arr.set channel.toNat { p with obj := p.obj.writeFrame frame })

/-- The first four statements of `performProcessing`: the contents of the scratch buffer
`temp` once the block is copied in, windowed, transformed and scaled. -/
def processBlock (E : Env F) (σ : FftProcessor F) (channel : Int) : Option (List F) := do
  let source ← readChannel σ.buffer channel
  let t1 ← copyFrom σ.temp source σ.size.toNat
  let t2 ← multiplyBy E t1 σ.window σ.size.toNat
  let t3 := E.transform σ.order t2
  multiplyScalar E t3 σ.amplitudeCorrectionFactor σ.size.toNat

/-- Method `FftProcessor<Order>::performProcessing`. -/
def performProcessing (E : Env F) (σ : FftProcessor F) (channel : Int) :
    Option (FftProcessor F) := do
  let t4 ← processBlock E σ channel
  let freqFrame ← readFrame t4 0 σ.order
  let fp ← writeProbe σ.freqProbes channel freqFrame
  let phaseFrame ← readFrame t4 σ.size.toNat σ.order
  let pp ← writeProbe σ.phaseProbes channel phaseFrame
  pure { σ with temp := t4, freqProbes := fp, phaseProbes := pp }

/-- The assignment `*reinterpret_cast<FftFrame*> (dest) = frame` that `copyFrame` makes:
the frame object replaces the first `frameExtent` floats of the caller's buffer, which
has to hold that many (the caller passes a pointer on a 16-byte boundary). -/
def storeFrame (dest frame : List F) (order : Nat) : Option (List F) :=
  if frameExtent order ≤ dest.length then some (frame ++ dest.drop (frameExtent order))
  else none

/-- Method `FftProcessor<Order>::copyFrequencyFrame`: the contents of the caller's buffer
`dest` after the call. -/
def copyFrequencyFrame (σ : FftProcessor F) (dest : List F) (channel : Int) :
    Option (List F) :=
  match probeAt σ.freqProbes channel with
  | none => none
  | some p =>
    match p.obj.copyFrame with
    | none => none
    | some frame => storeFrame dest frame σ.order

/-- Method `FftProcessor<Order>::copyPhaseFrame`: the contents of the caller's buffer
`dest` after the call. -/
def copyPhaseFrame (σ : FftProcessor F) (dest : List F) (channel : Int) :
    Option (List F) :=
  match probeAt σ.phaseProbes channel with
  | none => none
  | some p =>
    match p.obj.copyFrame with
    | none => none
    | some frame => storeFrame dest frame σ.order

/-- Method `FftProcessor<Order>::addListener`. -/
def addListener (σ : FftProcessor F) (listener : Listener) : FftProcessor F :=
  { σ with listeners := listenerListAdd σ.listeners listener }

/-- Method `FftProcessor<Order>::removeListener`. -/
def removeListener (σ : FftProcessor F) (listener : Listener) : FftProcessor F :=
  { σ with listeners := listenerListRemove σ.listeners listener }

/-- One range-based loop of `ownsProbe`: `true` as soon as the pointer to an element, its
address, equals the pointer `audioProbe`. -/
def ownsLoop (E : Env F) (audioProbe : Nat) : List (OwnedProbe F) → Bool
  | [] => false
  | p :: rest => if audioProbe = E.address p.ref then true else ownsLoop E audioProbe rest

/-- Method `FftProcessor<Order>::ownsProbe`; `audioProbe` is the address passed. -/
def ownsProbe (E : Env F) (σ : FftProcessor F) (audioProbe : Nat) : Bool :=
  let owned := ownsLoop E audioProbe σ.freqProbes
  if !owned then ownsLoop E audioProbe σ.phaseProbes else owned

end FftProcessor

/-! ## An environment for evaluating the definitions -/

/-- Integer-valued stand-ins for the window tables, used only to run the definitions. -/
def sampleCoefficient : WindowingMethod → Nat → Nat → Int
  | WindowingMethod.rectangular, _, _ => 1
  | WindowingMethod.hann, _, i =>
    if i = 0 then 1 else if i = 1 then -1 else if i = 2 then 1 else 0
  | WindowingMethod.triangular, n, i => Int.ofNat (min (i + 1) (n - i))
  | _, _, i => Int.ofNat i + 1

/-- An environment over the integers, used only to run the definitions on concrete
inputs: exact integer arithmetic, a length-preserving stand-in for the transform, and an
allocator that serves four addresses in turn. -/
def sampleEnv : Env Int :=
  { zero := 0
    one := 1
    two := 2
    add := fun a b => a + b
    mul := fun a b => a * b
    div := fun a b => a / b
    mul_comm := Int.mul_comm
    coefficient := sampleCoefficient
    transform := fun _ s => List.zipWith (fun a b => a + b) s s.reverse
    transform_length := fun _ s => by simp
    address := fun k => k % 4 }

/-! ## Specification vocabulary -/

/-- The probes that `count` consecutive allocations create, the first with reference
`base` and every second allocation after it (the loop of `prepare` allocates a frequency
probe and a phase probe in turn). -/
def freshProbes {F : Type} (base : Nat) : Nat → List (OwnedProbe F)
  | 0 => []
  | count + 1 => { ref := base, obj := AudioProbe.create } :: freshProbes (base + 2) count

/-- The probe `p` once the listeners `ls` have been attached to it one after the other. -/
def withListeners {F : Type} (ls : List Listener) (p : OwnedProbe F) : OwnedProbe F :=
  { p with obj := { p.obj with listeners := ls.foldl listenerListAdd p.obj.listeners } }

namespace FftProcessor

variable {F : Type}

/-- The scratch buffer once its first `2 ^ order` entries are set to `b[i] * window[i]`
for the accumulated block `b` of `2 ^ order` samples; the entries from `2 ^ order` on are
those the buffer held before. -/
def scratchAfterWindow (E : Env F) (σ : FftProcessor F) (b : List F) : List F :=
  List.zipWith E.mul b σ.window ++ σ.temp.drop (2 ^ σ.order)

/-- The frame of the first `2 ^ order` entries of the transformed scratch buffer, each
multiplied by the amplitude correction factor. -/
def freqFrameOf (E : Env F) (σ : FftProcessor F) (b : List F) : List F :=
  ((E.transform σ.order (scratchAfterWindow E σ b)).take (2 ^ σ.order)).map
    (fun x => E.mul x σ.amplitudeCorrectionFactor)

/-- The frame of the entries of the transformed scratch buffer from `2 ^ order` on. -/
def phaseFrameOf (E : Env F) (σ : FftProcessor F) (b : List F) : List F :=
  (E.transform σ.order (scratchAfterWindow E σ b)).drop (2 ^ σ.order)

/-- The buffers have the sizes the constructor gives them for the order of the
processor: block size, window length and length of the member `f` of a frame `2 ^ order`,
scratch buffer `2 * 2 ^ order`. -/
structure Sized (σ : FftProcessor F) : Prop where
  size_eq : σ.size = 2 ^ σ.order
  maxBlockSize_eq : σ.maxBlockSize = 2 ^ σ.order
  frame_eq : frameLength σ.order = 2 ^ σ.order
  temp_length : σ.temp.length = 2 * 2 ^ σ.order
  window_length : σ.window.length = 2 ^ σ.order

/-- A prepared processor with `n` channels: sized buffers, `n` frequency probes, `n`
phase probes and an accumulation buffer of `n` channels of one block each. -/
structure Prepared (σ : FftProcessor F) (n : Nat) : Prop where
  sized : Sized σ
  freq_length : σ.freqProbes.length = n
  phase_length : σ.phaseProbes.length = n
  buffer_length : σ.buffer.length = n
  block_length : ∀ b ∈ σ.buffer, b.length = 2 ^ σ.order

/-- Every access `performProcessing` makes to the scratch buffer and to the window lies
inside them: the block copy to `temp[0 .. size)`, the window multiply and the scaling over
`size` elements, the frequency frame object at `temp[0 .. frameExtent)` and the phase
frame object at `temp[size .. size + frameExtent)`, each on a 16-byte boundary. -/
structure AccessesInBounds (σ : FftProcessor F) : Prop where
  copy_in_temp : 0 + σ.size.toNat ≤ σ.temp.length
  multiply_in_temp : σ.size.toNat ≤ σ.temp.length
  multiply_in_window : σ.size.toNat ≤ σ.window.length
  freq_frame_in_temp : 0 + frameExtent σ.order ≤ σ.temp.length
  phase_frame_aligned : σ.size.toNat % 4 = 0
  phase_frame_in_temp : σ.size.toNat + frameExtent σ.order ≤ σ.temp.length

/-- Statement of the wiring rule of `prepare` for a state and a spec: `prepare`
completes; afterwards the frequency probe and the phase probe of channel
`numChannels - 1` have exactly the listeners registered on the processor attached, and
the probes of every lower channel have none. -/
def WiredToLastChannel (E : Env F) (σ : FftProcessor F) (spec : ProcessSpec) : Prop :=
  ∃ σ' fp pp, FftProcessor.prepare E σ spec = some σ'
    ∧ probeAt σ'.freqProbes ((spec.numChannels : Int) - 1) = some fp
    ∧ probeAt σ'.phaseProbes ((spec.numChannels : Int) - 1) = some pp
    ∧ (∀ l, l ∈ fp.obj.listeners ↔ l ∈ σ.listeners)
    ∧ (∀ l, l ∈ pp.obj.listeners ↔ l ∈ σ.listeners)
    ∧ ∀ c : Nat, c + 1 < spec.numChannels →
        ∃ fq pq, probeAt σ'.freqProbes (c : Int) = some fq
          ∧ probeAt σ'.phaseProbes (c : Int) = some pq
          ∧ fq.obj.listeners = [] ∧ pq.obj.listeners = []

/-- Statement of the allocation rule of `prepare` for a state and a spec: `prepare`
completes; afterwards the processor holds exactly `numChannels` frequency probes and
`numChannels` phase probes, none of them a probe it held before. -/
def AllocatesChannelProbes (E : Env F) (σ : FftProcessor F) (spec : ProcessSpec) : Prop :=
  ∃ σ', FftProcessor.prepare E σ spec = some σ'
    ∧ σ'.freqProbes.length = spec.numChannels
    ∧ σ'.phaseProbes.length = spec.numChannels
    ∧ ∀ p ∈ σ'.freqProbes ++ σ'.phaseProbes, ∀ q ∈ σ.freqProbes ++ σ.phaseProbes,
        p.ref ≠ q.ref

/-- Statement of the sizes the constructor sets for an order: the constructor completes
and leaves the order, sized buffers, a frame object of `2 ^ order` floats and in-bounds
accesses. -/
def ConstructorSizes (E : Env F) (order : Nat) : Prop :=
  ∃ σ, FftProcessor.construct E order = some σ ∧ σ.order = order ∧ Sized σ
    ∧ frameExtent order = 2 ^ order ∧ AccessesInBounds σ

/-- Every index `prepare` uses to select a probe for listener wiring is within the
freshly allocated probe arrays: the index `lastChannel` is used once per registered
listener, on both arrays. -/
def WiringIndexInRange (E : Env F) (σ : FftProcessor F) (spec : ProcessSpec) : Prop :=
  σ.listeners = []
    ∨ ((probeAt (allocateProbes E σ spec).freqProbes (lastChannel spec)).isSome = true
        ∧ (probeAt (allocateProbes E σ spec).phaseProbes (lastChannel spec)).isSome = true)

/-- The states a processor can be in: the constructor's state and every state a public
method (or the accumulation of samples by the base class) leaves from such a state. -/
inductive Reachable (E : Env F) : FftProcessor F → Prop
  | construct (order : Nat) (σ : FftProcessor F) :
      FftProcessor.construct E order = some σ → Reachable E σ
  | prepare (σ σ' : FftProcessor F) (spec : ProcessSpec) :
      Reachable E σ → FftProcessor.prepare E σ spec = some σ' → Reachable E σ'
  | performProcessing (σ σ' : FftProcessor F) (channel : Int) :
      Reachable E σ → FftProcessor.performProcessing E σ channel = some σ' → Reachable E σ'
  | setWindowingMethod (σ σ' : FftProcessor F) (m : WindowingMethod) :
      Reachable E σ → FftProcessor.setWindowingMethod E σ m = some σ' → Reachable E σ'
  | addListener (σ : FftProcessor F) (l : Listener) :
      Reachable E σ → Reachable E (FftProcessor.addListener σ l)
  | removeListener (σ : FftProcessor F) (l : Listener) :
      Reachable E σ → Reachable E (FftProcessor.removeListener σ l)
  | accumulate (σ : FftProcessor F) (samples : List (List F)) :
      Reachable E σ → Reachable E (FftProcessor.accumulate σ samples)

/-- The states of a processor on which `prepare` has not been called yet. -/
inductive Unprepared (E : Env F) : FftProcessor F → Prop
  | construct (order : Nat) (σ : FftProcessor F) :
      FftProcessor.construct E order = some σ → Unprepared E σ
  | setWindowingMethod (σ σ' : FftProcessor F) (m : WindowingMethod) :
      Unprepared E σ → FftProcessor.setWindowingMethod E σ m = some σ' → Unprepared E σ'
  | addListener (σ : FftProcessor F) (l : Listener) :
      Unprepared E σ → Unprepared E (FftProcessor.addListener σ l)
  | removeListener (σ : FftProcessor F) (l : Listener) :
      Unprepared E σ → Unprepared E (FftProcessor.removeListener σ l)

/-- What every reachable state satisfies. -/
structure Invariant (E : Env F) (σ : FftProcessor F) : Prop where
  size_nonneg : 0 ≤ σ.size
  size_lt : σ.size < 2147483648
  window_length : σ.window.length = σ.size.toNat
  factor_eq : σ.amplitudeCorrectionFactor = E.div E.two (σ.window.foldl E.add E.zero)
  probes_length : σ.freqProbes.length = σ.phaseProbes.length
  freq_allocated : ∀ p ∈ σ.freqProbes, p.ref < σ.nextProbe
  phase_allocated : ∀ p ∈ σ.phaseProbes, p.ref < σ.nextProbe

end FftProcessor

/-! ## Sample states for evaluating the definitions -/

/-- The state `construct sampleEnv 2` returns: an `FftProcessor<2>` over `sampleEnv`. -/
def sampleConstructed : FftProcessor Int :=
  { order := 2
    maxBlockSize := 4
    buffer := []
    size := 4
    temp := [0, 0, 0, 0, 0, 0, 0, 0]
    window := [1, -1, 1, 0]
    amplitudeCorrectionFactor := 2
    freqProbes := []
    phaseProbes := []
    listeners := []
    nextProbe := 0 }

/-- The processor `sampleConstructed` after `addListener (7)`, `prepare` for two channels
and the accumulation of one block per channel. -/
def samplePrepared : FftProcessor Int :=
  { order := 2
    maxBlockSize := 4
    buffer := [[1, 2, 3, 4], [5, 6, 7, 8]]
    size := 4
    temp := [0, 0, 0, 0, 0, 0, 0, 0]
    window := [1, -1, 1, 0]
    amplitudeCorrectionFactor := 2
    freqProbes :=
      [{ ref := 0, obj := AudioProbe.create },
       { ref := 2, obj := { frame := none, generation := 0, listeners := [7] } }]
    phaseProbes :=
      [{ ref := 1, obj := AudioProbe.create },
       { ref := 3, obj := { frame := none, generation := 0, listeners := [7] } }]
    listeners := [7]
    nextProbe := 4 }

/-- The state `construct sampleEnv 1` returns: an `FftProcessor<1>` over `sampleEnv`. -/
def sampleSmallConstructed : FftProcessor Int :=
  { order := 1
    maxBlockSize := 2
    buffer := []
    size := 2
    temp := [0, 0, 0, 0]
    window := [1, -1]
    amplitudeCorrectionFactor := 0
    freqProbes := []
    phaseProbes := []
    listeners := []
    nextProbe := 0 }

/-- The processor `sampleSmallConstructed` after `prepare` for two channels and the
accumulation of one block per channel. -/
def sampleSmallPrepared : FftProcessor Int :=
  { order := 1
    maxBlockSize := 2
    buffer := [[1, 2], [3, 4]]
    size := 2
    temp := [0, 0, 0, 0]
    window := [1, -1]
    amplitudeCorrectionFactor := 0
    freqProbes :=
      [{ ref := 0, obj := AudioProbe.create }, { ref := 2, obj := AudioProbe.create }]
    phaseProbes :=
      [{ ref := 1, obj := AudioProbe.create }, { ref := 3, obj := AudioProbe.create }]
    listeners := []
    nextProbe := 4 }

/-! ## Machine integers: values that are represented exactly -/

theorem toInt32_of_range (x : Int) (h1 : -2147483648 ≤ x) (h2 : x < 2147483648) :
    toInt32 x = x := by
  unfold toInt32
  omega

theorem two_pow_le_of_le {a b : Nat} (h : a ≤ b) : (2 : Int) ^ a ≤ 2 ^ b := by
  have h2 : (2 : Nat) ^ a ≤ 2 ^ b := Nat.pow_le_pow_right (by decide) h
  exact_mod_cast h2

theorem two_pow_pos (a : Nat) : (0 : Int) < 2 ^ a := by positivity

theorem shiftLeftOne_eq (order : Nat) (h : order ≤ 30) : shiftLeftOne order = 2 ^ order := by
  have h1 : (2 : Int) ^ order ≤ 2 ^ 30 := two_pow_le_of_le h
  have h2 := two_pow_pos order
  unfold shiftLeftOne
  apply toInt32_of_range <;> omega

theorem two_pow_toNat (order : Nat) : ((2 : Int) ^ order).toNat = 2 ^ order := by
  have h : ((2 : Int) ^ order) = ((2 ^ order : Nat) : Int) := by push_cast; rfl
  rw [h, Int.toNat_natCast]

theorem frameLength_eq (order : Nat) (h : order ≤ 30) : frameLength order = 2 ^ order := by
  unfold frameLength
  rw [shiftLeftOne_eq order h, two_pow_toNat]

theorem staticCastSizeT_of_nonneg (x : Int) (h1 : 0 ≤ x) (h2 : x < 2147483648) :
    staticCastSizeT x = x.toNat := by
  unfold staticCastSizeT
  congr 1
  omega

theorem staticCastInt_of_lt (n : Nat) (h : n < 2147483648) : staticCastInt n = n := by
  unfold staticCastInt
  have h1 : n % 4294967296 = n := Nat.mod_eq_of_lt (by omega)
  rw [h1]
  apply toInt32_of_range <;> simp <;> omega

theorem staticCastInt_nonpos_of_ge (n : Nat) (h1 : 2147483648 ≤ n) (h2 : n < 4294967296) :
    staticCastInt n < 0 := by
  unfold staticCastInt toInt32
  have h3 : n % 4294967296 = n := Nat.mod_eq_of_lt h2
  rw [h3]
  simp only [Int.ofNat_eq_coe]
  omega

/-! ## The window table and the normalisation factor -/

theorem windowTable_length {F : Type} (E : Env F) (m : WindowingMethod) (n : Nat) :
    (windowTable E m n).length = n := by
  simp [windowTable]

theorem windowIntegralLoop_eq {F : Type} (E : Env F) (w : List F) :
    ∀ (count i : Nat) (acc : F), i + count ≤ w.length →
      windowIntegralLoop E w count i acc
        = some (((w.drop i).take count).foldl E.add acc) := by
  intro count
  induction count with
  | zero => intro i acc _; simp [windowIntegralLoop]
  | succ k ih =>
    intro i acc h
    have hi : i < w.length := by omega
    rw [windowIntegralLoop, List.getElem?_eq_getElem hi]
    simp only
    rw [ih (i + 1) (E.add acc w[i]) (by omega), List.drop_eq_getElem_cons hi,
      List.take_succ_cons, List.foldl_cons]

theorem windowIntegralLoop_full {F : Type} (E : Env F) (w : List F) :
    windowIntegralLoop E w w.length 0 E.zero = some (w.foldl E.add E.zero) := by
  rw [windowIntegralLoop_eq E w w.length 0 E.zero (by omega)]
  simp

theorem fillWindowingTables_full {F : Type} (E : Env F) (w : List F) (m : WindowingMethod) :
    fillWindowingTables E w w.length m = some (windowTable E m w.length) := by
  simp [fillWindowingTables]

namespace FftProcessor

variable {F : Type}

/-- The state `setWindowingMethod` leaves when the window buffer holds `size` samples. -/
theorem setWindowingMethod_eq (E : Env F) (σ : FftProcessor F) (m : WindowingMethod)
    (h0 : 0 ≤ σ.size) (h1 : σ.size < 2147483648) (hw : σ.window.length = σ.size.toNat) :
    setWindowingMethod E σ m
      = some { σ with
          window := windowTable E WindowingMethod.hann σ.size.toNat
          amplitudeCorrectionFactor :=
            E.div E.two
              ((windowTable E WindowingMethod.hann σ.size.toNat).foldl E.add E.zero) } := by
  unfold setWindowingMethod
  simp only
  rw [staticCastSizeT_of_nonneg σ.size h0 h1, ← hw, fillWindowingTables_full]
  simp only
  have hl := windowTable_length E WindowingMethod.hann σ.window.length
  have h2 := windowIntegralLoop_full E (windowTable E WindowingMethod.hann σ.window.length)
  rw [hl] at h2
  rw [h2]

/-- The state the constructor leaves for an order whose buffer sizes fit an `int`. -/
theorem construct_eq (E : Env F) (order : Nat) (h : order ≤ 29) :
    construct E order
      = some { initial E order with
          temp := List.replicate (2 * 2 ^ order) E.zero
          window := windowTable E WindowingMethod.hann (2 ^ order)
          amplitudeCorrectionFactor :=
            E.div E.two
              ((windowTable E WindowingMethod.hann (2 ^ order)).foldl E.add E.zero) } := by
  have hs : shiftLeftOne order = 2 ^ order := shiftLeftOne_eq order (by omega)
  have hp := two_pow_pos order
  have hle : (2 : Int) ^ order ≤ 2 ^ 29 := two_pow_le_of_le h
  have h2 : toInt32 ((2 : Int) ^ order * 2) = 2 ^ order * 2 := by
    apply toInt32_of_range <;> omega
  have ht : ((2 : Int) ^ order * 2).toNat = 2 * 2 ^ order := by
    have : ((2 : Int) ^ order * 2) = ((2 * 2 ^ order : Nat) : Int) := by push_cast; ring
    rw [this, Int.toNat_natCast]
  unfold construct
  simp only [initial, hs, h2, setSize]
  rw [if_pos (by omega), if_pos (by omega)]
  simp only
  rw [setWindowingMethod_eq E _ _ (by simp) (by simp only; omega)
    (by simp [two_pow_toNat])]
  simp [ht, two_pow_toNat]

end FftProcessor

/-! ## Probe arrays -/

theorem set_eq_self_of_getElem? {α : Type} {l : List α} {k : Nat} {a : α}
    (h : l[k]? = some a) : l.set k a = l := by
  apply List.ext_getElem?
  intro j
  rw [List.getElem?_set]
  split
  · next hkj =>
    subst hkj
    have hk : k < l.length := (List.getElem?_eq_some_iff.mp h).1
    simp [hk, h]
  · rfl

theorem freshProbes_length {F : Type} (count : Nat) :
    ∀ base : Nat, (freshProbes base count : List (OwnedProbe F)).length = count := by
  induction count with
  | zero => intro base; rfl
  | succ k ih => intro base; simp [freshProbes, ih]

theorem freshProbes_getElem? {F : Type} (count : Nat) :
    ∀ (base j : Nat), j < count →
      (freshProbes base count : List (OwnedProbe F))[j]?
        = some { ref := base + 2 * j, obj := AudioProbe.create } := by
  induction count with
  | zero => intro base j h; omega
  | succ k ih =>
    intro base j h
    cases j with
    | zero => simp [freshProbes]
    | succ i =>
      simp only [freshProbes, List.getElem?_cons_succ]
      rw [ih (base + 2) i (by omega)]
      congr 2
      omega

theorem freshProbes_mem {F : Type} (count : Nat) :
    ∀ (base : Nat) (p : OwnedProbe F), p ∈ freshProbes base count →
      ∃ j, j < count ∧ p = { ref := base + 2 * j, obj := AudioProbe.create } := by
  induction count with
  | zero => intro base p h; simp [freshProbes] at h
  | succ k ih =>
    intro base p h
    simp only [freshProbes, List.mem_cons] at h
    rcases h with h | h
    · exact ⟨0, by omega, by subst h; rfl⟩
    · obtain ⟨j, hj, hp⟩ := ih (base + 2) p h
      refine ⟨j + 1, by omega, ?_⟩
      rw [hp]
      congr 1
      omega

theorem probeAt_natCast {F : Type} (arr : List (OwnedProbe F)) (k : Nat) :
    probeAt arr (k : Int) = arr[k]? := by
  simp [probeAt]

theorem probeAt_of_neg {F : Type} (arr : List (OwnedProbe F)) (i : Int) (h : i < 0) :
    probeAt arr i = none := by
  simp [probeAt, h]

theorem probeAt_nil {F : Type} (i : Int) : probeAt ([] : List (OwnedProbe F)) i = none := by
  simp [probeAt]

theorem mem_foldl_listenerListAdd (ls : List Listener) :
    ∀ (init : List Listener) (l : Listener),
      l ∈ ls.foldl listenerListAdd init ↔ l ∈ init ∨ l ∈ ls := by
  induction ls with
  | nil => intro init l; simp
  | cons a rest ih =>
    intro init l
    simp only [List.foldl_cons, List.mem_cons]
    rw [ih]
    unfold listenerListAdd
    by_cases ha : a ∈ init
    · rw [if_pos ha]
      constructor
      · rintro (h | h)
        · exact Or.inl h
        · exact Or.inr (Or.inr h)
      · rintro (h | h | h)
        · exact Or.inl h
        · subst h; exact Or.inl ha
        · exact Or.inr h
    · rw [if_neg ha]
      simp only [List.mem_append, List.mem_singleton]
      tauto

theorem withListeners_nil {F : Type} (p : OwnedProbe F) : withListeners [] p = p := by
  cases p with
  | mk r o => cases o; rfl

theorem withListeners_cons {F : Type} (l : Listener) (ls : List Listener) (p : OwnedProbe F) :
    withListeners ls { p with obj := p.obj.addListener l } = withListeners (l :: ls) p := by
  simp [withListeners, AudioProbe.addListener]

namespace FftProcessor

variable {F : Type}

theorem addProbesLoop_eq (count : Nat) :
    ∀ σ : FftProcessor F, addProbesLoop count σ
      = { σ with
          freqProbes := σ.freqProbes ++ freshProbes σ.nextProbe count
          phaseProbes := σ.phaseProbes ++ freshProbes (σ.nextProbe + 1) count
          nextProbe := σ.nextProbe + 2 * count } := by
  induction count with
  | zero => intro σ; simp [addProbesLoop, freshProbes]
  | succ k ih =>
    intro σ
    rw [addProbesLoop, ih]
    simp only [addChannelProbes, freshProbes, List.append_assoc, List.singleton_append]
    congr 1
    omega

theorem addProbesLoop_cleared (σ : FftProcessor F) (buf : List (List F)) (count : Nat) :
    addProbesLoop count { σ with buffer := buf, freqProbes := [], phaseProbes := [] }
      = { σ with
          buffer := buf
          freqProbes := freshProbes σ.nextProbe count
          phaseProbes := freshProbes (σ.nextProbe + 1) count
          nextProbe := σ.nextProbe + 2 * count } := by
  rw [addProbesLoop_eq]
  simp only [List.nil_append]

theorem allocateProbes_eq (E : Env F) (σ : FftProcessor F) (spec : ProcessSpec) :
    allocateProbes E σ spec
      = { σ with
          buffer := List.replicate spec.numChannels
                      (List.replicate σ.maxBlockSize.toNat E.zero)
          freqProbes := freshProbes σ.nextProbe (staticCastInt spec.numChannels).toNat
          phaseProbes := freshProbes (σ.nextProbe + 1) (staticCastInt spec.numChannels).toNat
          nextProbe := σ.nextProbe + 2 * (staticCastInt spec.numChannels).toNat } :=
  addProbesLoop_cleared σ _ _

theorem attachListener_eq (arr : List (OwnedProbe F)) (k : Nat) (l : Listener)
    (p : OwnedProbe F) (h : arr[k]? = some p) :
    attachListener arr (k : Int) l
      = some (arr.set k { p with obj := p.obj.addListener l }) := by
  simp [attachListener, probeAt_natCast, h]

theorem wireListenersLoop_eq (k : Nat) (ls : List Listener) :
    ∀ (σ : FftProcessor F) (fp pp : OwnedProbe F),
      σ.freqProbes[k]? = some fp → σ.phaseProbes[k]? = some pp →
      wireListenersLoop (k : Int) ls σ
        = some { σ with
            freqProbes := σ.freqProbes.set k (withListeners ls fp)
            phaseProbes := σ.phaseProbes.set k (withListeners ls pp) } := by
  induction ls with
  | nil =>
    intro σ fp pp hf hp
    have h1 : σ.freqProbes.set k fp = σ.freqProbes := set_eq_self_of_getElem? hf
    have h2 : σ.phaseProbes.set k pp = σ.phaseProbes := set_eq_self_of_getElem? hp
    simp [wireListenersLoop, withListeners_nil, h1, h2]
  | cons l rest ih =>
    intro σ fp pp hf hp
    have hkf : k < σ.freqProbes.length := (List.getElem?_eq_some_iff.mp hf).1
    have hkp : k < σ.phaseProbes.length := (List.getElem?_eq_some_iff.mp hp).1
    rw [wireListenersLoop, attachListener_eq _ k l fp hf, attachListener_eq _ k l pp hp]
    simp only
    rw [ih _ { fp with obj := fp.obj.addListener l } { pp with obj := pp.obj.addListener l }
      (by simp [hkf]) (by simp [hkp])]
    simp [withListeners_cons]

theorem wireListenersLoop_none (i : Int) (l : Listener) (rest : List Listener)
    (σ : FftProcessor F) (h : probeAt σ.freqProbes i = none) :
    wireListenersLoop i (l :: rest) σ = none := by
  simp [wireListenersLoop, attachListener, h]

end FftProcessor

theorem probeAt_eq_some {F : Type} {arr : List (OwnedProbe F)} {i : Int} {p : OwnedProbe F}
    (h : probeAt arr i = some p) : 0 ≤ i ∧ arr[i.toNat]? = some p := by
  unfold probeAt at h
  split at h
  · next h0 => exact ⟨h0, h⟩
  · cases h

theorem map_ref_set {F : Type} {arr : List (OwnedProbe F)} {k : Nat} {p q : OwnedProbe F}
    (h : arr[k]? = some p) (hq : q.ref = p.ref) :
    (arr.set k q).map (fun x => x.ref) = arr.map (fun x => x.ref) := by
  rw [List.map_set, hq]
  apply set_eq_self_of_getElem?
  simp [List.getElem?_map, h]

namespace FftProcessor

variable {F : Type}

theorem attachListener_some {arr arr' : List (OwnedProbe F)} {i : Int} {l : Listener}
    (h : attachListener arr i l = some arr') :
    ∃ p, probeAt arr i = some p
      ∧ arr' = arr.set i.toNat { p with obj := p.obj.addListener l } := by
  unfold attachListener at h
  split at h
  · cases h
  · next p hp => exact ⟨p, hp, by cases h; rfl⟩

theorem writeProbe_some {arr arr' : List (OwnedProbe F)} {i : Int} {f : List F}
    (h : writeProbe arr i f = some arr') :
    ∃ p, probeAt arr i = some p
      ∧ arr' = arr.set i.toNat { p with obj := p.obj.writeFrame f } := by
  unfold writeProbe at h
  split at h
  · cases h
  · next p hp => exact ⟨p, hp, by cases h; rfl⟩

theorem attachListener_refs {arr arr' : List (OwnedProbe F)} {i : Int} {l : Listener}
    (h : attachListener arr i l = some arr') :
    arr'.map (fun x => x.ref) = arr.map (fun x => x.ref) := by
  obtain ⟨p, hp, rfl⟩ := attachListener_some h
  exact map_ref_set (probeAt_eq_some hp).2 rfl

theorem writeProbe_refs {arr arr' : List (OwnedProbe F)} {i : Int} {f : List F}
    (h : writeProbe arr i f = some arr') :
    arr'.map (fun x => x.ref) = arr.map (fun x => x.ref) := by
  obtain ⟨p, hp, rfl⟩ := writeProbe_some h
  exact map_ref_set (probeAt_eq_some hp).2 rfl

/-- What the listener loop of `prepare` can change: the two probe arrays, and in them
only the probe objects, never which probes the arrays hold. -/
theorem wireListenersLoop_some (i : Int) (ls : List Listener) :
    ∀ (σ σ' : FftProcessor F), wireListenersLoop i ls σ = some σ' →
      σ' = { σ with freqProbes := σ'.freqProbes, phaseProbes := σ'.phaseProbes }
      ∧ σ'.freqProbes.map (fun x => x.ref) = σ.freqProbes.map (fun x => x.ref)
      ∧ σ'.phaseProbes.map (fun x => x.ref) = σ.phaseProbes.map (fun x => x.ref) := by
  induction ls with
  | nil =>
    intro σ σ' h
    simp only [wireListenersLoop, Option.some.injEq] at h
    subst h
    exact ⟨rfl, rfl, rfl⟩
  | cons l rest ih =>
    intro σ σ' h
    rw [wireListenersLoop] at h
    split at h
    · cases h
    · next fp hfp =>
      split at h
      · cases h
      · next pp hpp =>
        obtain ⟨h1, h2, h3⟩ := ih _ _ h
        refine ⟨?_, ?_, ?_⟩
        · rw [h1]
        · rw [h2]; exact attachListener_refs hfp
        · rw [h3]; exact attachListener_refs hpp

theorem performProcessing_some (E : Env F) (σ σ' : FftProcessor F) (channel : Int)
    (h : performProcessing E σ channel = some σ') :
    ∃ t ff pf fp pp, processBlock E σ channel = some t
      ∧ readFrame t 0 σ.order = some ff
      ∧ writeProbe σ.freqProbes channel ff = some fp
      ∧ readFrame t σ.size.toNat σ.order = some pf
      ∧ writeProbe σ.phaseProbes channel pf = some pp
      ∧ σ' = { σ with temp := t, freqProbes := fp, phaseProbes := pp } := by
  simp only [performProcessing, Option.bind_eq_bind, Option.bind_eq_some, Option.pure_def,
    Option.some.injEq] at h
  obtain ⟨t, ht, ff, hff, fp, hfp, pf, hpf, pp, hpp, h⟩ := h
  exact ⟨t, ff, pf, fp, pp, ht, hff, hfp, hpf, hpp, h.symm⟩

end FftProcessor

theorem toInt32_lt (x : Int) : toInt32 x < 2147483648 := by
  unfold toInt32
  omega

theorem toInt32_ge (x : Int) : -2147483648 ≤ toInt32 x := by
  unfold toInt32
  omega

theorem shiftLeftOne_lt (order : Nat) : shiftLeftOne order < 2147483648 := by
  unfold shiftLeftOne
  exact toInt32_lt _

theorem exists_ref_of_map_ref_eq {F : Type} {a b : List (OwnedProbe F)}
    (h : a.map (fun x => x.ref) = b.map (fun x => x.ref)) {p : OwnedProbe F} (hp : p ∈ a) :
    ∃ q ∈ b, q.ref = p.ref := by
  have h1 : p.ref ∈ a.map (fun x => x.ref) := List.mem_map_of_mem _ hp
  rw [h] at h1
  obtain ⟨q, hq, hqr⟩ := List.mem_map.mp h1
  exact ⟨q, hq, hqr⟩

theorem length_eq_of_map_ref_eq {F : Type} {a b : List (OwnedProbe F)}
    (h : a.map (fun x => x.ref) = b.map (fun x => x.ref)) : a.length = b.length := by
  have := congrArg List.length h
  simpa using this

namespace FftProcessor

variable {F : Type}

/-- What `prepare` changes when it completes: the accumulation buffer, the two probe
arrays and the allocation counter; the arrays hold the probes allocated by the call. -/
theorem prepare_some (E : Env F) (σ σ' : FftProcessor F) (spec : ProcessSpec)
    (h : prepare E σ spec = some σ') :
    σ' = { σ with
            buffer := List.replicate spec.numChannels
                        (List.replicate σ.maxBlockSize.toNat E.zero)
            freqProbes := σ'.freqProbes
            phaseProbes := σ'.phaseProbes
            nextProbe := σ.nextProbe + 2 * (staticCastInt spec.numChannels).toNat }
      ∧ σ'.freqProbes.map (fun x => x.ref)
          = (freshProbes σ.nextProbe (staticCastInt spec.numChannels).toNat
              : List (OwnedProbe F)).map (fun x => x.ref)
      ∧ σ'.phaseProbes.map (fun x => x.ref)
          = (freshProbes (σ.nextProbe + 1) (staticCastInt spec.numChannels).toNat
              : List (OwnedProbe F)).map (fun x => x.ref) := by
  unfold prepare at h
  simp only at h
  rw [allocateProbes_eq] at h
  generalize (staticCastInt spec.numChannels).toNat = k at h ⊢
  generalize lastChannel spec = i at h
  obtain ⟨h1, h2, h3⟩ := wireListenersLoop_some i _ _ _ h
  exact ⟨h1, h2, h3⟩

theorem invariant_construct (E : Env F) (order : Nat) (σ : FftProcessor F)
    (h : construct E order = some σ) : Invariant E σ := by
  unfold construct at h
  simp only [setSize] at h
  split at h
  · cases h
  · next t ht =>
    split at h
    · cases h
    · next w hw =>
      have h0 : 0 ≤ (initial E order).size := by
        by_contra hneg
        rw [if_neg hneg] at hw
        cases hw
      rw [if_pos h0] at hw
      cases hw
      have hlt : (initial E order).size < 2147483648 := shiftLeftOne_lt order
      have key := setWindowingMethod_eq E
        { initial E order with
          temp := t, window := List.replicate (initial E order).size.toNat E.zero }
        WindowingMethod.hann h0 hlt (by simp)
      rw [key] at h
      cases h
      exact
        { size_nonneg := h0
          size_lt := hlt
          window_length := windowTable_length E _ _
          factor_eq := rfl
          probes_length := rfl
          freq_allocated := by intro p hp; cases hp
          phase_allocated := by intro p hp; cases hp }

theorem invariant_setWindowingMethod (E : Env F) (σ σ' : FftProcessor F)
    (m : WindowingMethod) (hi : Invariant E σ) (h : setWindowingMethod E σ m = some σ') :
    Invariant E σ' := by
  rw [setWindowingMethod_eq E σ m hi.size_nonneg hi.size_lt hi.window_length] at h
  cases h
  exact
    { size_nonneg := hi.size_nonneg
      size_lt := hi.size_lt
      window_length := windowTable_length E _ _
      factor_eq := rfl
      probes_length := hi.probes_length
      freq_allocated := hi.freq_allocated
      phase_allocated := hi.phase_allocated }

theorem invariant_prepare (E : Env F) (σ σ' : FftProcessor F) (spec : ProcessSpec)
    (hi : Invariant E σ) (h : prepare E σ spec = some σ') : Invariant E σ' := by
  obtain ⟨h1, h2, h3⟩ := prepare_some E σ σ' spec h
  generalize (staticCastInt spec.numChannels).toNat = k at h1 h2 h3
  have hs : σ'.size = σ.size := by rw [h1]
  have hw : σ'.window = σ.window := by rw [h1]
  have hf : σ'.amplitudeCorrectionFactor = σ.amplitudeCorrectionFactor := by rw [h1]
  have hn : σ'.nextProbe = σ.nextProbe + 2 * k := by rw [h1]
  refine
    { size_nonneg := by rw [hs]; exact hi.size_nonneg
      size_lt := by rw [hs]; exact hi.size_lt
      window_length := by rw [hs, hw]; exact hi.window_length
      factor_eq := by rw [hf, hw]; exact hi.factor_eq
      probes_length := ?_
      freq_allocated := ?_
      phase_allocated := ?_ }
  · rw [length_eq_of_map_ref_eq h2, length_eq_of_map_ref_eq h3, freshProbes_length,
      freshProbes_length]
  · intro p hp
    obtain ⟨q, hq, hqr⟩ := exists_ref_of_map_ref_eq h2 hp
    obtain ⟨j, hj, hqj⟩ := freshProbes_mem k _ q hq
    rw [hn, ← hqr, hqj]
    show σ.nextProbe + 2 * j < σ.nextProbe + 2 * k
    omega
  · intro p hp
    obtain ⟨q, hq, hqr⟩ := exists_ref_of_map_ref_eq h3 hp
    obtain ⟨j, hj, hqj⟩ := freshProbes_mem k _ q hq
    rw [hn, ← hqr, hqj]
    show σ.nextProbe + 1 + 2 * j < σ.nextProbe + 2 * k
    omega

theorem invariant_performProcessing (E : Env F) (σ σ' : FftProcessor F) (channel : Int)
    (hi : Invariant E σ) (h : performProcessing E σ channel = some σ') : Invariant E σ' := by
  obtain ⟨t, ff, pf, fp, pp, _, _, hfp, _, hpp, rfl⟩ :=
    performProcessing_some E σ σ' channel h
  have h2 := writeProbe_refs hfp
  have h3 := writeProbe_refs hpp
  refine
    { size_nonneg := hi.size_nonneg
      size_lt := hi.size_lt
      window_length := hi.window_length
      factor_eq := hi.factor_eq
      probes_length := ?_
      freq_allocated := ?_
      phase_allocated := ?_ }
  · show fp.length = pp.length
    rw [length_eq_of_map_ref_eq h2, length_eq_of_map_ref_eq h3]
    exact hi.probes_length
  · intro p hp
    obtain ⟨q, hq, hqr⟩ := exists_ref_of_map_ref_eq h2 hp
    rw [← hqr]
    exact hi.freq_allocated q hq
  · intro p hp
    obtain ⟨q, hq, hqr⟩ := exists_ref_of_map_ref_eq h3 hp
    rw [← hqr]
    exact hi.phase_allocated q hq

theorem invariant_of_reachable (E : Env F) (σ : FftProcessor F) (h : Reachable E σ) :
    Invariant E σ := by
  induction h with
  | construct order σ hc => exact invariant_construct E order σ hc
  | prepare σ σ' spec _ hp ih => exact invariant_prepare E σ σ' spec ih hp
  | performProcessing σ σ' channel _ hp ih =>
    exact invariant_performProcessing E σ σ' channel ih hp
  | setWindowingMethod σ σ' m _ hs ih => exact invariant_setWindowingMethod E σ σ' m ih hs
  | addListener σ l _ ih =>
    exact ⟨ih.size_nonneg, ih.size_lt, ih.window_length, ih.factor_eq, ih.probes_length,
      ih.freq_allocated, ih.phase_allocated⟩
  | removeListener σ l _ ih =>
    exact ⟨ih.size_nonneg, ih.size_lt, ih.window_length, ih.factor_eq, ih.probes_length,
      ih.freq_allocated, ih.phase_allocated⟩
  | accumulate σ samples _ ih =>
    exact ⟨ih.size_nonneg, ih.size_lt, ih.window_length, ih.factor_eq, ih.probes_length,
      ih.freq_allocated, ih.phase_allocated⟩

/-! ## One block through `performProcessing` -/

theorem mem_of_getElem?_eq_some {α : Type} {l : List α} {k : Nat} {a : α}
    (h : l[k]? = some a) : a ∈ l := by
  obtain ⟨hk, rfl⟩ := List.getElem?_eq_some_iff.mp h
  exact List.getElem_mem hk

theorem copyFrom_eq (dest source : List F) (n : Nat) (hs : source.length = n)
    (hd : n ≤ dest.length) : copyFrom dest source n = some (source ++ dest.drop n) := by
  unfold copyFrom
  rw [if_pos ⟨by omega, hd⟩, List.take_of_length_le (by omega)]

theorem multiplyBy_eq (E : Env F) (b rest w : List F) (n : Nat) (hb : b.length = n)
    (hw : w.length = n) :
    multiplyBy E (b ++ rest) w n = some (List.zipWith E.mul b w ++ rest) := by
  unfold multiplyBy
  rw [if_pos ⟨by omega, by simp; omega⟩, List.take_of_length_le (l := w) (by omega),
    List.take_left' hb, List.drop_left' hb]

theorem two_pow_mod_four (k : Nat) (h : 2 ≤ k) : 2 ^ k % 4 = 0 := by
  obtain ⟨j, rfl⟩ : ∃ j, k = j + 2 := ⟨k - 2, by omega⟩
  rw [pow_add]
  omega

/-- From order 2 on an `FftFrame` object has no padding. -/
theorem frameExtent_eq (order : Nat) (h2 : 2 ≤ order) (hf : frameLength order = 2 ^ order) :
    frameExtent order = 2 ^ order := by
  have h4 := two_pow_mod_four order h2
  unfold frameExtent
  rw [hf]
  omega

theorem readFrame_zero (a rest : List F) (order : Nat) (ha : a.length = frameExtent order) :
    readFrame (a ++ rest) 0 order = some a := by
  unfold readFrame
  rw [if_pos ⟨by omega, by simp; omega⟩, List.drop_zero, List.take_left' ha]

theorem readFrame_second (a rest : List F) (order : Nat)
    (ha : a.length = frameExtent order) (hr : rest.length = frameExtent order)
    (h4 : frameExtent order % 4 = 0) :
    readFrame (a ++ rest) (frameExtent order) order = some rest := by
  unfold readFrame
  rw [if_pos ⟨h4, by simp; omega⟩, List.drop_left' ha, List.take_of_length_le (by omega)]

theorem size_toNat_of_sized (σ : FftProcessor F) (h : Sized σ) :
    σ.size.toNat = 2 ^ σ.order := by
  rw [h.size_eq, two_pow_toNat]

theorem scratchAfterWindow_length (E : Env F) (σ : FftProcessor F) (b : List F)
    (h : Sized σ) (hb : b.length = 2 ^ σ.order) :
    (scratchAfterWindow E σ b).length = 2 * 2 ^ σ.order := by
  simp [scratchAfterWindow, hb, h.window_length, h.temp_length]
  omega

theorem processBlock_eq (E : Env F) (σ : FftProcessor F) (c : Nat) (b : List F)
    (h : Sized σ) (hc : σ.buffer[c]? = some b) (hb : b.length = 2 ^ σ.order) :
    processBlock E σ (c : Int)
      = some (freqFrameOf E σ b ++ phaseFrameOf E σ b) := by
  have hN := size_toNat_of_sized σ h
  have h1 : readChannel σ.buffer (c : Int) = some b := by simp [readChannel, hc]
  have h2 := copyFrom_eq σ.temp b (2 ^ σ.order) hb (by rw [h.temp_length]; omega)
  have h3 := multiplyBy_eq E b (σ.temp.drop (2 ^ σ.order)) σ.window (2 ^ σ.order) hb
    h.window_length
  have h4 : 2 ^ σ.order ≤ (E.transform σ.order (scratchAfterWindow E σ b)).length := by
    rw [E.transform_length, scratchAfterWindow_length E σ b h hb]
    omega
  unfold processBlock
  rw [h1, hN]
  simp only [Option.bind_eq_bind, Option.some_bind]
  rw [h2]
  simp only [Option.some_bind]
  rw [h3]
  simp only [Option.some_bind]
  unfold multiplyScalar
  rw [show List.zipWith E.mul b σ.window ++ List.drop (2 ^ σ.order) σ.temp
    = scratchAfterWindow E σ b from rfl, if_pos h4]
  rfl

theorem freqFrameOf_length (E : Env F) (σ : FftProcessor F) (b : List F)
    (h : Sized σ) (hb : b.length = 2 ^ σ.order) :
    (freqFrameOf E σ b).length = 2 ^ σ.order := by
  simp [freqFrameOf, E.transform_length, scratchAfterWindow_length E σ b h hb]

theorem phaseFrameOf_length (E : Env F) (σ : FftProcessor F) (b : List F)
    (h : Sized σ) (hb : b.length = 2 ^ σ.order) :
    (phaseFrameOf E σ b).length = 2 ^ σ.order := by
  simp [phaseFrameOf, E.transform_length, scratchAfterWindow_length E σ b h hb]
  omega

theorem writeProbe_eq (arr : List (OwnedProbe F)) (c : Nat) (f : List F) (p : OwnedProbe F)
    (h : arr[c]? = some p) :
    writeProbe arr (c : Int) f = some (arr.set c { p with obj := p.obj.writeFrame f }) := by
  simp [writeProbe, probeAt_natCast, h]

/-- The state `performProcessing` leaves on a prepared processor. -/
theorem performProcessing_eq (E : Env F) (σ : FftProcessor F) (n c : Nat) (b : List F)
    (fp pp : OwnedProbe F) (h : Prepared σ n) (ho : 2 ≤ σ.order)
    (hc : σ.buffer[c]? = some b)
    (hf : σ.freqProbes[c]? = some fp) (hp : σ.phaseProbes[c]? = some pp) :
    performProcessing E σ (c : Int)
      = some { σ with
          temp := freqFrameOf E σ b ++ phaseFrameOf E σ b
          freqProbes :=
            σ.freqProbes.set c { fp with obj := fp.obj.writeFrame (freqFrameOf E σ b) }
          phaseProbes :=
            σ.phaseProbes.set c { pp with obj := pp.obj.writeFrame (phaseFrameOf E σ b) } } := by
  have hb : b.length = 2 ^ σ.order := h.block_length b (mem_of_getElem?_eq_some hc)
  have hN := size_toNat_of_sized σ h.sized
  have h1 := processBlock_eq E σ c b h.sized hc hb
  have he := frameExtent_eq σ.order ho h.sized.frame_eq
  have h2 := readFrame_zero (freqFrameOf E σ b) (phaseFrameOf E σ b) σ.order
    (by rw [he]; exact freqFrameOf_length E σ b h.sized hb)
  have h3 := readFrame_second (freqFrameOf E σ b) (phaseFrameOf E σ b) σ.order
    (by rw [he]; exact freqFrameOf_length E σ b h.sized hb)
    (by rw [he]; exact phaseFrameOf_length E σ b h.sized hb)
    (by rw [he]; exact two_pow_mod_four σ.order ho)
  rw [he] at h3
  unfold performProcessing
  rw [h1, hN]
  simp only [Option.bind_eq_bind, Option.some_bind]
  rw [h2]
  simp only [Option.some_bind]
  rw [writeProbe_eq _ c _ fp hf]
  simp only [Option.some_bind]
  rw [h3]
  simp only [Option.some_bind]
  rw [writeProbe_eq _ c _ pp hp]
  rfl

theorem probes_of_prepared (σ : FftProcessor F) (n c : Nat) (h : Prepared σ n) (hc : c < n) :
    ∃ b fp pp, σ.buffer[c]? = some b ∧ σ.freqProbes[c]? = some fp
      ∧ σ.phaseProbes[c]? = some pp := by
  have h1 : c < σ.buffer.length := by rw [h.buffer_length]; exact hc
  have h2 : c < σ.freqProbes.length := by rw [h.freq_length]; exact hc
  have h3 : c < σ.phaseProbes.length := by rw [h.phase_length]; exact hc
  exact ⟨σ.buffer[c], σ.freqProbes[c], σ.phaseProbes[c], List.getElem?_eq_getElem h1,
    List.getElem?_eq_getElem h2, List.getElem?_eq_getElem h3⟩

/-! ## Closed forms of `prepare` -/

theorem lastChannel_of_pos (spec : ProcessSpec) (h1 : 1 ≤ spec.numChannels)
    (h2 : spec.numChannels < 2147483648) :
    lastChannel spec = ((spec.numChannels - 1 : Nat) : Int) := by
  unfold lastChannel
  rw [staticCastInt_of_lt _ h2, toInt32_of_range] <;> omega

theorem lastChannel_zero (spec : ProcessSpec) (h : spec.numChannels = 0) :
    lastChannel spec = -1 := by
  unfold lastChannel
  rw [h, staticCastInt_of_lt 0 (by omega), toInt32_of_range] <;> simp

theorem castChannels_toNat (spec : ProcessSpec) (h : spec.numChannels < 2147483648) :
    (staticCastInt spec.numChannels).toNat = spec.numChannels := by
  rw [staticCastInt_of_lt _ h, Int.toNat_natCast]

theorem castChannels_toNat_zero (spec : ProcessSpec)
    (h : ¬ (1 ≤ spec.numChannels ∧ spec.numChannels < 2147483648))
    (h32 : spec.numChannels < 4294967296) :
    (staticCastInt spec.numChannels).toNat = 0 := by
  by_cases h0 : spec.numChannels = 0
  · rw [h0, staticCastInt_of_lt 0 (by omega)]
    rfl
  · have := staticCastInt_nonpos_of_ge spec.numChannels (by omega) h32
    omega

/-- The state `prepare` leaves for a channel count between 1 and `2 ^ 31 - 1`. -/
theorem prepare_of_channels (E : Env F) (σ : FftProcessor F) (spec : ProcessSpec)
    (h1 : 1 ≤ spec.numChannels) (h2 : spec.numChannels < 2147483648) :
    prepare E σ spec
      = some { σ with
          buffer := List.replicate spec.numChannels
                      (List.replicate σ.maxBlockSize.toNat E.zero)
          freqProbes :=
            (freshProbes σ.nextProbe spec.numChannels).set (spec.numChannels - 1)
              (withListeners σ.listeners
                { ref := σ.nextProbe + 2 * (spec.numChannels - 1), obj := AudioProbe.create })
          phaseProbes :=
            (freshProbes (σ.nextProbe + 1) spec.numChannels).set (spec.numChannels - 1)
              (withListeners σ.listeners
                { ref := σ.nextProbe + 1 + 2 * (spec.numChannels - 1),
                  obj := AudioProbe.create })
          nextProbe := σ.nextProbe + 2 * spec.numChannels } := by
  unfold prepare
  simp only
  rw [allocateProbes_eq, castChannels_toNat spec h2, lastChannel_of_pos spec h1 h2]
  exact wireListenersLoop_eq (spec.numChannels - 1) σ.listeners _ _ _
    (freshProbes_getElem? _ _ _ (by omega)) (freshProbes_getElem? _ _ _ (by omega))

/-- With no listener registered the second loop of `prepare` does nothing. -/
theorem prepare_of_no_listeners (E : Env F) (σ : FftProcessor F) (spec : ProcessSpec)
    (h : σ.listeners = []) : prepare E σ spec = some (allocateProbes E σ spec) := by
  unfold prepare
  simp only
  have hl : (allocateProbes E σ spec).listeners = [] := by
    rw [allocateProbes_eq]
    exact h
  rw [hl, wireListenersLoop]

/-- With a listener registered and no probe allocated, `prepare` dereferences a null
probe. -/
theorem prepare_of_no_probes (E : Env F) (σ : FftProcessor F) (spec : ProcessSpec)
    (hl : σ.listeners ≠ []) (h0 : (staticCastInt spec.numChannels).toNat = 0) :
    prepare E σ spec = none := by
  unfold prepare
  simp only
  rw [allocateProbes_eq, h0]
  generalize lastChannel spec = i
  obtain ⟨l, rest, hls⟩ := List.exists_cons_of_ne_nil hl
  show wireListenersLoop i σ.listeners _ = none
  rw [hls]
  exact wireListenersLoop_none i l rest _ (probeAt_nil i)

end FftProcessor

/-! ## The sample states are states of the program -/

theorem construct_sample : FftProcessor.construct sampleEnv 2 = some sampleConstructed := by
  decide

theorem prepare_sample :
    FftProcessor.prepare sampleEnv (FftProcessor.addListener sampleConstructed 7) ⟨2⟩
      = some (FftProcessor.accumulate samplePrepared [[0, 0, 0, 0], [0, 0, 0, 0]]) := by
  decide

theorem reachable_sampleConstructed : FftProcessor.Reachable sampleEnv sampleConstructed :=
  FftProcessor.Reachable.construct 2 _ construct_sample

theorem reachable_samplePrepared : FftProcessor.Reachable sampleEnv samplePrepared :=
  FftProcessor.Reachable.accumulate _ [[1, 2, 3, 4], [5, 6, 7, 8]]
    (FftProcessor.Reachable.prepare _ _ ⟨2⟩
      (FftProcessor.Reachable.addListener _ 7 reachable_sampleConstructed) prepare_sample)

theorem construct_sampleSmall :
    FftProcessor.construct sampleEnv 1 = some sampleSmallConstructed := by
  decide

theorem prepare_sampleSmall :
    FftProcessor.prepare sampleEnv sampleSmallConstructed ⟨2⟩
      = some (FftProcessor.accumulate sampleSmallPrepared [[0, 0], [0, 0]]) := by
  decide

theorem reachable_sampleSmallPrepared :
    FftProcessor.Reachable sampleEnv sampleSmallPrepared :=
  FftProcessor.Reachable.accumulate _ [[1, 2], [3, 4]]
    (FftProcessor.Reachable.prepare _ _ ⟨2⟩
      (FftProcessor.Reachable.construct 1 _ construct_sampleSmall) prepare_sampleSmall)

theorem prepared_sampleSmallPrepared : FftProcessor.Prepared sampleSmallPrepared 2 :=
  { sized :=
      { size_eq := by decide
        maxBlockSize_eq := by decide
        frame_eq := by decide
        temp_length := by decide
        window_length := by decide }
    freq_length := by decide
    phase_length := by decide
    buffer_length := by decide
    block_length := by decide }

theorem sized_samplePrepared : FftProcessor.Sized samplePrepared :=
  { size_eq := by decide
    maxBlockSize_eq := by decide
    frame_eq := by decide
    temp_length := by decide
    window_length := by decide }

theorem prepared_samplePrepared : FftProcessor.Prepared samplePrepared 2 :=
  { sized := sized_samplePrepared
    freq_length := by decide
    phase_length := by decide
    buffer_length := by decide
    block_length := by decide }

namespace FftProcessor

variable {F : Type}

/-! ## What `performProcessing` leaves alone -/

theorem probeAt_set_ne (arr : List (OwnedProbe F)) (c c' : Int) (q : OwnedProbe F)
    (h0 : 0 ≤ c) (hne : c ≠ c') : probeAt (arr.set c.toNat q) c' = probeAt arr c' := by
  unfold probeAt
  split
  · next h0' =>
    have : c.toNat ≠ c'.toNat := by omega
    exact List.getElem?_set_ne this
  · rfl

theorem probeAt_set_self (arr : List (OwnedProbe F)) (c : Int) (p q : OwnedProbe F)
    (h : probeAt arr c = some p) : probeAt (arr.set c.toNat q) c = some q := by
  obtain ⟨h0, hp⟩ := probeAt_eq_some h
  have hk : c.toNat < arr.length := (List.getElem?_eq_some_iff.mp hp).1
  unfold probeAt
  rw [if_pos h0]
  exact List.getElem?_set_self hk

theorem writeProbe_other {arr arr' : List (OwnedProbe F)} {c : Int} {f : List F}
    (h : writeProbe arr c f = some arr') (c' : Int) (hne : c ≠ c') :
    probeAt arr' c' = probeAt arr c' := by
  obtain ⟨p, hp, rfl⟩ := writeProbe_some h
  exact probeAt_set_ne arr c c' _ (probeAt_eq_some hp).1 hne

theorem writeProbe_self {arr arr' : List (OwnedProbe F)} {c : Int} {f : List F}
    (h : writeProbe arr c f = some arr') :
    ∃ p, probeAt arr' c = some p ∧ p.obj.copyFrame = some f := by
  obtain ⟨p, hp, rfl⟩ := writeProbe_some h
  exact ⟨_, probeAt_set_self arr c p _ hp, rfl⟩

/-- Apart from the scratch buffer, `performProcessing (c)` changes only the two probes of
channel `c`. -/
theorem performProcessing_other (E : Env F) (σ σ' : FftProcessor F) (c c' : Int)
    (h : performProcessing E σ c = some σ') (hne : c ≠ c') :
    probeAt σ'.freqProbes c' = probeAt σ.freqProbes c'
      ∧ probeAt σ'.phaseProbes c' = probeAt σ.phaseProbes c'
      ∧ σ'.window = σ.window
      ∧ σ'.amplitudeCorrectionFactor = σ.amplitudeCorrectionFactor
      ∧ σ'.listeners = σ.listeners := by
  obtain ⟨t, ff, pf, fp, pp, _, _, hfp, _, hpp, rfl⟩ := performProcessing_some E σ σ' c h
  exact ⟨writeProbe_other hfp c' hne, writeProbe_other hpp c' hne, rfl, rfl, rfl⟩

theorem storeFrame_full (dest frame : List F) (order : Nat)
    (h : frameExtent order = dest.length) : storeFrame dest frame order = some frame := by
  unfold storeFrame
  rw [if_pos (by omega), h, List.drop_length, List.append_nil]

theorem performProcessing_order (E : Env F) (σ σ' : FftProcessor F) (c : Int)
    (h : performProcessing E σ c = some σ') : σ'.order = σ.order := by
  obtain ⟨t, ff, pf, fp, pp, _, _, _, _, _, rfl⟩ := performProcessing_some E σ σ' c h
  rfl

theorem copyFrequencyFrame_congr (σ σ' : FftProcessor F) (dest : List F) (c : Int)
    (h : probeAt σ'.freqProbes c = probeAt σ.freqProbes c) (ho : σ'.order = σ.order) :
    copyFrequencyFrame σ' dest c = copyFrequencyFrame σ dest c := by
  unfold copyFrequencyFrame
  rw [h, ho]

theorem copyPhaseFrame_congr (σ σ' : FftProcessor F) (dest : List F) (c : Int)
    (h : probeAt σ'.phaseProbes c = probeAt σ.phaseProbes c) (ho : σ'.order = σ.order) :
    copyPhaseFrame σ' dest c = copyPhaseFrame σ dest c := by
  unfold copyPhaseFrame
  rw [h, ho]

theorem performProcessing_total (E : Env F) (σ : FftProcessor F) (n c : Nat)
    (h : Prepared σ n) (ho : 2 ≤ σ.order) (hc : c < n) :
    ∃ σ', performProcessing E σ (c : Int) = some σ' := by
  obtain ⟨b, fp, pp, hb, hf, hp⟩ := probes_of_prepared σ n c h hc
  exact ⟨_, performProcessing_eq E σ n c b fp pp h ho hb hf hp⟩

/-- Where `performProcessing` completes on a sized processor the order is at least 2: the
phase frame object at `temp + size` lies on a 16-byte boundary only then. -/
theorem two_le_order_of_performProcessing (E : Env F) (σ σ' : FftProcessor F) (c : Int)
    (hs : Sized σ) (h : performProcessing E σ c = some σ') : 2 ≤ σ.order := by
  obtain ⟨t, ff, pf, fp, pp, _, _, _, hpf, _, _⟩ := performProcessing_some E σ σ' c h
  unfold readFrame at hpf
  split at hpf
  · next hcond =>
    have h4 := hcond.1
    rw [size_toNat_of_sized σ hs] at h4
    by_contra hlt
    have hcases : σ.order = 0 ∨ σ.order = 1 := by omega
    rcases hcases with h0 | h1
    · rw [h0] at h4
      exact absurd h4 (by decide)
    · rw [h1] at h4
      exact absurd h4 (by decide)
  · cases hpf

/-! ## Prepared states are what the program produces -/

/-- A sized processor is prepared for `n` channels once `prepare` completes for a spec of
`n < 2 ^ 31` channels. -/
theorem prepared_of_prepare (E : Env F) (σ σ' : FftProcessor F) (spec : ProcessSpec)
    (hs : Sized σ) (h2 : spec.numChannels < 2147483648)
    (h : prepare E σ spec = some σ') : Prepared σ' spec.numChannels := by
  obtain ⟨h1, hf, hp⟩ := prepare_some E σ σ' spec h
  rw [castChannels_toNat spec h2] at h1 hf hp
  have ho : σ'.order = σ.order := by rw [h1]
  have hsz : σ'.size = σ.size := by rw [h1]
  have hm : σ'.maxBlockSize = σ.maxBlockSize := by rw [h1]
  have ht : σ'.temp = σ.temp := by rw [h1]
  have hw : σ'.window = σ.window := by rw [h1]
  have hb : σ'.buffer
      = List.replicate spec.numChannels (List.replicate σ.maxBlockSize.toNat E.zero) := by
    rw [h1]
  refine
    { sized :=
        { size_eq := by rw [hsz, ho]; exact hs.size_eq
          maxBlockSize_eq := by rw [hm, ho]; exact hs.maxBlockSize_eq
          frame_eq := by rw [ho]; exact hs.frame_eq
          temp_length := by rw [ht, ho]; exact hs.temp_length
          window_length := by rw [hw, ho]; exact hs.window_length }
      freq_length := by rw [length_eq_of_map_ref_eq hf, freshProbes_length]
      phase_length := by rw [length_eq_of_map_ref_eq hp, freshProbes_length]
      buffer_length := by rw [hb, List.length_replicate]
      block_length := ?_ }
  intro b hbm
  rw [hb] at hbm
  rw [(List.mem_replicate.mp hbm).2, List.length_replicate, ho, hs.maxBlockSize_eq,
    two_pow_toNat]

/-- A prepared processor is still prepared after `performProcessing`. -/
theorem prepared_of_performProcessing (E : Env F) (σ σ' : FftProcessor F) (n c : Nat)
    (h : Prepared σ n) (hc : c < n) (hσ' : performProcessing E σ (c : Int) = some σ') :
    Prepared σ' n := by
  obtain ⟨b, fp, pp, hb, hf, hp⟩ := probes_of_prepared σ n c h hc
  have hbl : b.length = 2 ^ σ.order := h.block_length b (mem_of_getElem?_eq_some hb)
  have ho := two_le_order_of_performProcessing E σ σ' (c : Int) h.sized hσ'
  rw [performProcessing_eq E σ n c b fp pp h ho hb hf hp] at hσ'
  cases hσ'
  exact
    { sized :=
        { size_eq := h.sized.size_eq
          maxBlockSize_eq := h.sized.maxBlockSize_eq
          frame_eq := h.sized.frame_eq
          temp_length := by
            show (freqFrameOf E σ b ++ phaseFrameOf E σ b).length = 2 * 2 ^ σ.order
            rw [List.length_append, freqFrameOf_length E σ b h.sized hbl,
              phaseFrameOf_length E σ b h.sized hbl]
            omega
          window_length := h.sized.window_length }
      freq_length := by
        show (σ.freqProbes.set c _).length = n
        rw [List.length_set]
        exact h.freq_length
      phase_length := by
        show (σ.phaseProbes.set c _).length = n
        rw [List.length_set]
        exact h.phase_length
      buffer_length := h.buffer_length
      block_length := h.block_length }

/-! ## The ranges of the amended claims cannot be widened -/

theorem setWindowingMethod_size (E : Env F) (σ σ' : FftProcessor F) (m : WindowingMethod)
    (h : setWindowingMethod E σ m = some σ') : σ'.size = σ.size ∧ σ'.temp = σ.temp := by
  unfold setWindowingMethod at h
  simp only at h
  split at h
  · cases h
  · split at h
    · cases h
    · cases h
      exact ⟨rfl, rfl⟩

theorem construct_size (E : Env F) (order : Nat) (σ : FftProcessor F)
    (h : construct E order = some σ) :
    σ.size = shiftLeftOne order ∧ 0 ≤ toInt32 (shiftLeftOne order * 2) := by
  unfold construct at h
  simp only [setSize] at h
  split at h
  · cases h
  · next t ht =>
    split at h
    · cases h
    · have h2 : 0 ≤ toInt32 ((initial E order).size * 2) := by
        by_contra hneg
        rw [if_neg hneg] at ht
        cases ht
      exact ⟨(setWindowingMethod_size E _ σ _ h).1, h2⟩

/-- The constructor sets the sizes of the claim for no order above 29. -/
theorem order_le_of_constructorSizes (E : Env F) (order : Nat)
    (h : ConstructorSizes E order) : order ≤ 29 := by
  obtain ⟨σ, hσ, ho, hs, _⟩ := h
  obtain ⟨h1, h2⟩ := construct_size E order σ hσ
  have h3 : shiftLeftOne order = 2 ^ order := by
    rw [← h1, hs.size_eq, ho]
  have h4 := shiftLeftOne_lt order
  rw [h3] at h2 h4
  by_contra hgt
  have h5 : (2 : Int) ^ 30 ≤ 2 ^ order := two_pow_le_of_le (by omega)
  have h6 : (2 : Int) ^ 30 = 1073741824 := by norm_num
  unfold toInt32 at h2
  omega

/-- The constructor sets the sizes of the claim for no order below 2. -/
theorem two_le_order_of_constructorSizes (E : Env F) (order : Nat)
    (h : ConstructorSizes E order) : 2 ≤ order := by
  obtain ⟨σ, _, _, _, he, _⟩ := h
  by_contra hlt
  have hcases : order = 0 ∨ order = 1 := by omega
  rcases hcases with h0 | h1
  · rw [h0] at he
    exact absurd he (by decide)
  · rw [h1] at he
    exact absurd he (by decide)

theorem prepare_no_probes_of_large (E : Env F) (σ σ' : FftProcessor F) (spec : ProcessSpec)
    (h1 : 2147483648 ≤ spec.numChannels) (h2 : spec.numChannels < 4294967296)
    (h : prepare E σ spec = some σ') : σ'.freqProbes = [] ∧ σ'.phaseProbes = [] := by
  obtain ⟨_, hf, hp⟩ := prepare_some E σ σ' spec h
  rw [castChannels_toNat_zero spec (by omega) h2] at hf hp
  have hf' := length_eq_of_map_ref_eq hf
  have hp' := length_eq_of_map_ref_eq hp
  rw [freshProbes_length] at hf' hp'
  exact ⟨List.length_eq_zero.mp hf', List.length_eq_zero.mp hp'⟩

/-- The wiring rule holds for no channel count from `2 ^ 31` on. -/
theorem not_wiredToLastChannel_of_large (E : Env F) (σ : FftProcessor F) (spec : ProcessSpec)
    (h1 : 2147483648 ≤ spec.numChannels) (h2 : spec.numChannels < 4294967296) :
    ¬ WiredToLastChannel E σ spec := by
  intro h
  obtain ⟨σ', fp, pp, hσ', hf, _⟩ := h
  rw [(prepare_no_probes_of_large E σ σ' spec h1 h2 hσ').1, probeAt_nil] at hf
  cases hf

/-- The allocation rule holds for no channel count from `2 ^ 31` on. -/
theorem not_allocatesChannelProbes_of_large (E : Env F) (σ : FftProcessor F)
    (spec : ProcessSpec) (h1 : 2147483648 ≤ spec.numChannels)
    (h2 : spec.numChannels < 4294967296) : ¬ AllocatesChannelProbes E σ spec := by
  intro h
  obtain ⟨σ', hσ', hf, _⟩ := h
  rw [(prepare_no_probes_of_large E σ σ' spec h1 h2 hσ').1] at hf
  have : (0 : Nat) = spec.numChannels := hf
  omega

/-! ## The claims -/

/-- C1 (amended): on a prepared processor of order at least 2 with `n` channels, for a
channel `c < n` whose accumulated block is `b`, `performProcessing (c)` completes and
calls `writeFrame` on frequency probe `c` with a frame `ff` and on phase probe `c` with a
frame `pf`, both of `2 ^ order` elements, such that
`ff[i] = amplitudeCorrectionFactor * T(s)[i]` and `pf[i] = T(s)[2 ^ order + i]`
(unscaled) for every `i < 2 ^ order`, where `T` is the transform and `s` the scratch
buffer whose first `2 ^ order` entries are `b[i] * window[i]` and whose other entries are
those it held before. -/
theorem performProcessing_writes_frames (E : Env F) (σ : FftProcessor F) (n c : Nat)
    (b : List F) (h : Prepared σ n) (ho : 2 ≤ σ.order) (hc : c < n)
    (hb : σ.buffer[c]? = some b) :
    ∃ σ' fp pp ff pf,
      performProcessing E σ (c : Int) = some σ'
      ∧ σ.freqProbes[c]? = some fp ∧ σ.phaseProbes[c]? = some pp
      ∧ σ'.freqProbes[c]? = some { fp with obj := fp.obj.writeFrame ff }
      ∧ σ'.phaseProbes[c]? = some { pp with obj := pp.obj.writeFrame pf }
      ∧ ff.length = 2 ^ σ.order ∧ pf.length = 2 ^ σ.order
      ∧ (∀ i, i < 2 ^ σ.order →
          ∃ x y, (E.transform σ.order (scratchAfterWindow E σ b))[i]? = some x
            ∧ (E.transform σ.order (scratchAfterWindow E σ b))[2 ^ σ.order + i]? = some y
            ∧ ff[i]? = some (E.mul σ.amplitudeCorrectionFactor x)
            ∧ pf[i]? = some y)
      ∧ (∀ i, i < 2 ^ σ.order →
          ∃ u v, b[i]? = some u ∧ σ.window[i]? = some v
            ∧ (scratchAfterWindow E σ b)[i]? = some (E.mul u v))
      ∧ (∀ j, 2 ^ σ.order ≤ j → (scratchAfterWindow E σ b)[j]? = σ.temp[j]?) := by
  obtain ⟨b', fp, pp, hb', hf, hp⟩ := probes_of_prepared σ n c h hc
  have hbl : b.length = 2 ^ σ.order := h.block_length b (mem_of_getElem?_eq_some hb)
  have hcf : c < σ.freqProbes.length := (List.getElem?_eq_some_iff.mp hf).1
  have hcp : c < σ.phaseProbes.length := (List.getElem?_eq_some_iff.mp hp).1
  have hT : (E.transform σ.order (scratchAfterWindow E σ b)).length = 2 * 2 ^ σ.order := by
    rw [E.transform_length, scratchAfterWindow_length E σ b h.sized hbl]
  refine ⟨_, fp, pp, freqFrameOf E σ b, phaseFrameOf E σ b,
    performProcessing_eq E σ n c b fp pp h ho hb hf hp, hf, hp, ?_, ?_,
    freqFrameOf_length E σ b h.sized hbl, phaseFrameOf_length E σ b h.sized hbl, ?_, ?_, ?_⟩
  · exact List.getElem?_set_self hcf
  · exact List.getElem?_set_self hcp
  · intro i hi
    have h1 : i < (E.transform σ.order (scratchAfterWindow E σ b)).length := by omega
    have h2 : 2 ^ σ.order + i < (E.transform σ.order (scratchAfterWindow E σ b)).length := by
      omega
    refine ⟨_, _, List.getElem?_eq_getElem h1, List.getElem?_eq_getElem h2, ?_, ?_⟩
    · unfold freqFrameOf
      rw [List.getElem?_map, List.getElem?_take_of_lt hi, List.getElem?_eq_getElem h1,
        Option.map_some', E.mul_comm]
    · unfold phaseFrameOf
      rw [List.getElem?_drop, List.getElem?_eq_getElem h2]
  · intro i hi
    have h1 : i < b.length := by omega
    have h2 : i < σ.window.length := by rw [h.sized.window_length]; exact hi
    refine ⟨_, _, List.getElem?_eq_getElem h1, List.getElem?_eq_getElem h2, ?_⟩
    unfold scratchAfterWindow
    rw [List.getElem?_append_left (by simp; omega), List.getElem?_zipWith,
      List.getElem?_eq_getElem h1, List.getElem?_eq_getElem h2]
  · intro j hj
    unfold scratchAfterWindow
    rw [List.getElem?_append_right (by simp [hbl, h.sized.window_length]; exact hj),
      List.getElem?_drop]
    congr 1
    simp [hbl, h.sized.window_length]
    omega

/-- Witness of C1: the theorem applied to channel 1 of the sample processor. -/
theorem performProcessing_writes_frames_witness :
    Prepared samplePrepared 2 ∧ 2 ≤ samplePrepared.order ∧ 1 < 2
      ∧ samplePrepared.buffer[1]? = some [5, 6, 7, 8]
      ∧ ∃ σ', performProcessing sampleEnv samplePrepared 1 = some σ' := by
  refine ⟨prepared_samplePrepared, by decide, by decide, by decide, ?_⟩
  obtain ⟨σ', _, _, _, _, h, _⟩ :=
    performProcessing_writes_frames sampleEnv samplePrepared 2 1 [5, 6, 7, 8]
      prepared_samplePrepared (by decide) (by decide) (by decide)
  exact ⟨σ', h⟩

/-- Counterexample to C1 as stated: on the prepared two-channel `FftProcessor<1>` the
scratch buffer has 4 floats and an `FftFrame` object spans 4 floats (16 bytes); the phase
frame object at `temp + size = temp + 2` is not on a 16-byte boundary and runs 2 floats
past the scratch buffer, so `performProcessing (1)` writes no frame. -/
theorem performProcessing_writes_frames_counterexample :
    Reachable sampleEnv sampleSmallPrepared ∧ Prepared sampleSmallPrepared 2 ∧ 1 < 2
      ∧ sampleSmallPrepared.buffer[1]? = some [3, 4]
      ∧ frameExtent sampleSmallPrepared.order = 4
      ∧ sampleSmallPrepared.temp.length = 4
      ∧ ¬ ∃ σ', performProcessing sampleEnv sampleSmallPrepared 1 = some σ' := by
  refine ⟨reachable_sampleSmallPrepared, prepared_sampleSmallPrepared, by decide, by decide,
    by decide, by decide, ?_⟩
  rintro ⟨σ', h⟩
  have hnone : performProcessing sampleEnv sampleSmallPrepared 1 = none := by decide
  rw [hnone] at h
  cases h

/-- C2: in every state the processor can be in, hence after construction and after every
call of `setWindowingMethod`, the window table holds `size` coefficients and
`amplitudeCorrectionFactor` equals 2 divided by their sum (added up in table order from
0, as the source does); `setWindowingMethod` completes in every such state and the
constructor leaves a table of `2 ^ order` coefficients. -/
theorem amplitudeCorrectionFactor_eq (E : Env F) (σ : FftProcessor F)
    (h : Reachable E σ) :
    (σ.window.length = σ.size.toNat
      ∧ σ.amplitudeCorrectionFactor = E.div E.two (σ.window.foldl E.add E.zero))
    ∧ (∀ m, ∃ σ', setWindowingMethod E σ m = some σ'
        ∧ σ'.window.length = σ'.size.toNat
        ∧ σ'.amplitudeCorrectionFactor = E.div E.two (σ'.window.foldl E.add E.zero))
    ∧ (∀ order τ, construct E order = some τ →
        τ.window.length = τ.size.toNat
        ∧ τ.amplitudeCorrectionFactor = E.div E.two (τ.window.foldl E.add E.zero)
        ∧ (order ≤ 29 → τ.window.length = 2 ^ order)) := by
  have hi := invariant_of_reachable E σ h
  refine ⟨⟨hi.window_length, hi.factor_eq⟩, ?_, ?_⟩
  · intro m
    have hs := setWindowingMethod_eq E σ m hi.size_nonneg hi.size_lt hi.window_length
    have hr := invariant_setWindowingMethod E σ _ m hi hs
    exact ⟨_, hs, hr.window_length, hr.factor_eq⟩
  · intro order τ hc
    have hτ := invariant_construct E order τ hc
    refine ⟨hτ.window_length, hτ.factor_eq, ?_⟩
    intro ho
    rw [construct_eq E order ho] at hc
    cases hc
    exact windowTable_length E _ _

/-- Witness of C2: the theorem applied to the sample processor. -/
theorem amplitudeCorrectionFactor_eq_witness :
    Reachable sampleEnv samplePrepared
      ∧ samplePrepared.amplitudeCorrectionFactor
          = sampleEnv.div sampleEnv.two
              (samplePrepared.window.foldl sampleEnv.add sampleEnv.zero) :=
  ⟨reachable_samplePrepared,
    (amplitudeCorrectionFactor_eq sampleEnv samplePrepared reachable_samplePrepared).1.2⟩

/-- C3 (amended): on a prepared processor of order at least 2, after `performProcessing (c)`
has written the frame `ff` (read at scratch offset 0) to frequency probe `c` and the frame
`pf` (read at scratch offset `size`) to phase probe `c`, `copyFrequencyFrame (dest, c)`
fills a buffer `dest` of `2 ^ order` floats with exactly `ff` and `copyPhaseFrame (dest, c)`
with exactly `pf`, and both keep doing so while other channels are processed. -/
theorem copyFrame_returns_written_frame (E : Env F) (σ : FftProcessor F) (n c : Nat)
    (h : Prepared σ n) (ho : 2 ≤ σ.order) (hc : c < n) :
    ∃ σ' t ff pf,
      performProcessing E σ (c : Int) = some σ'
      ∧ processBlock E σ (c : Int) = some t
      ∧ readFrame t 0 σ.order = some ff
      ∧ readFrame t σ.size.toNat σ.order = some pf
      ∧ writeProbe σ.freqProbes (c : Int) ff = some σ'.freqProbes
      ∧ writeProbe σ.phaseProbes (c : Int) pf = some σ'.phaseProbes
      ∧ ff.length = 2 ^ σ.order ∧ pf.length = 2 ^ σ.order
      ∧ (∀ dest : List F, dest.length = 2 ^ σ.order →
          copyFrequencyFrame σ' dest (c : Int) = some ff
            ∧ copyPhaseFrame σ' dest (c : Int) = some pf)
      ∧ ∀ (c' : Int) (σ'' : FftProcessor F) (dest : List F), c' ≠ (c : Int) →
          performProcessing E σ' c' = some σ'' → dest.length = 2 ^ σ.order →
          copyFrequencyFrame σ'' dest (c : Int) = some ff
            ∧ copyPhaseFrame σ'' dest (c : Int) = some pf := by
  obtain ⟨σ', hσ'⟩ := performProcessing_total E σ n c h ho hc
  obtain ⟨t, ff, pf, fp, pp, ht, hff, hfp, hpf, hpp, rfl⟩ :=
    performProcessing_some E σ σ' (c : Int) hσ'
  obtain ⟨b, _, _, hb, _, _⟩ := probes_of_prepared σ n c h hc
  have hbl : b.length = 2 ^ σ.order := h.block_length b (mem_of_getElem?_eq_some hb)
  have he := frameExtent_eq σ.order ho h.sized.frame_eq
  have hfl := freqFrameOf_length E σ b h.sized hbl
  have hpl := phaseFrameOf_length E σ b h.sized hbl
  have hz := readFrame_zero (freqFrameOf E σ b) (phaseFrameOf E σ b) σ.order
    (by rw [he]; exact hfl)
  have hs := readFrame_second (freqFrameOf E σ b) (phaseFrameOf E σ b) σ.order
    (by rw [he]; exact hfl) (by rw [he]; exact hpl)
    (by rw [he]; exact two_pow_mod_four σ.order ho)
  rw [he, ← size_toNat_of_sized σ h.sized] at hs
  have ht' := processBlock_eq E σ c b h.sized hb hbl
  rw [ht] at ht'
  cases ht'
  rw [hz] at hff
  rw [hs] at hpf
  cases hff
  cases hpf
  obtain ⟨p1, hp1, hp1f⟩ := writeProbe_self hfp
  obtain ⟨p2, hp2, hp2f⟩ := writeProbe_self hpp
  have hcf : ∀ dest : List F, dest.length = 2 ^ σ.order →
      copyFrequencyFrame
        { σ with temp := freqFrameOf E σ b ++ phaseFrameOf E σ b, freqProbes := fp,
                 phaseProbes := pp } dest (c : Int) = some (freqFrameOf E σ b) := by
    intro dest hd
    unfold copyFrequencyFrame
    simp only [hp1, hp1f]
    exact storeFrame_full dest _ σ.order (by rw [he, hd])
  have hcp : ∀ dest : List F, dest.length = 2 ^ σ.order →
      copyPhaseFrame
        { σ with temp := freqFrameOf E σ b ++ phaseFrameOf E σ b, freqProbes := fp,
                 phaseProbes := pp } dest (c : Int) = some (phaseFrameOf E σ b) := by
    intro dest hd
    unfold copyPhaseFrame
    simp only [hp2, hp2f]
    exact storeFrame_full dest _ σ.order (by rw [he, hd])
  refine ⟨_, _, _, _, hσ', ht, hz, hs, hfp, hpp, hfl, hpl,
    fun dest hd => ⟨hcf dest hd, hcp dest hd⟩, ?_⟩
  intro c' σ'' dest hne hσ'' hd
  obtain ⟨h1, h2, _⟩ := performProcessing_other E _ σ'' c' (c : Int) hσ'' hne
  have ho' := performProcessing_order E _ σ'' c' hσ''
  rw [copyFrequencyFrame_congr _ σ'' dest _ h1 ho', copyPhaseFrame_congr _ σ'' dest _ h2 ho']
  exact ⟨hcf dest hd, hcp dest hd⟩

/-- Witness of C3: the theorem applied to channel 1 of the sample processor. -/
theorem copyFrame_returns_written_frame_witness :
    Prepared samplePrepared 2 ∧ 2 ≤ samplePrepared.order ∧ 1 < 2
      ∧ ∃ σ' ff pf, performProcessing sampleEnv samplePrepared 1 = some σ'
          ∧ copyFrequencyFrame σ' [0, 0, 0, 0] 1 = some ff
          ∧ copyPhaseFrame σ' [0, 0, 0, 0] 1 = some pf := by
  refine ⟨prepared_samplePrepared, by decide, by decide, ?_⟩
  obtain ⟨σ', _, ff, pf, h, _, _, _, _, _, _, _, hcopy, _⟩ :=
    copyFrame_returns_written_frame sampleEnv samplePrepared 2 1 prepared_samplePrepared
      (by decide) (by decide)
  exact ⟨σ', ff, pf, h, (hcopy [0, 0, 0, 0] (by decide)).1, (hcopy [0, 0, 0, 0] (by decide)).2⟩

/-- Counterexample to C3 as stated: on the prepared two-channel `FftProcessor<1>`
`performProcessing (1)` writes no frame (the phase frame object at `temp + 2` is off the
16-byte boundary and leaves the scratch buffer), and a frame object, 4 floats, does not fit
the caller's buffer of `2 ^ 1 = 2` floats that `copyFrequencyFrame` and `copyPhaseFrame`
assign to. -/
theorem copyFrame_returns_written_frame_counterexample :
    Reachable sampleEnv sampleSmallPrepared ∧ Prepared sampleSmallPrepared 2 ∧ 1 < 2
      ∧ performProcessing sampleEnv sampleSmallPrepared 1 = none
      ∧ (∀ frame : List Int, storeFrame [0, 0] frame sampleSmallPrepared.order = none)
      ∧ ¬ ∃ σ' ff, performProcessing sampleEnv sampleSmallPrepared 1 = some σ'
            ∧ copyFrequencyFrame σ' [0, 0] 1 = some ff := by
  have hnone : performProcessing sampleEnv sampleSmallPrepared 1 = none := by decide
  refine ⟨reachable_sampleSmallPrepared, prepared_sampleSmallPrepared, by decide, hnone,
    fun frame => rfl, ?_⟩
  rintro ⟨σ', ff, h, _⟩
  rw [hnone] at h
  cases h

/-- C7 (amended): on a prepared processor of order at least 2 with `n` channels, for
distinct channels `c, c' < n`, `performProcessing (c)` completes and leaves the frequency
probe and the phase probe of `c'` as they were, so that `copyFrequencyFrame (dest, c')` and
`copyPhaseFrame (dest, c')` return the same frames before and after, and it leaves the
window table, `amplitudeCorrectionFactor` and the listener list unchanged. -/
theorem performProcessing_leaves_other_channels (E : Env F) (σ : FftProcessor F)
    (n c c' : Nat) (h : Prepared σ n) (ho : 2 ≤ σ.order) (hc : c < n) (hc' : c' < n)
    (hne : c ≠ c') :
    ∃ σ', performProcessing E σ (c : Int) = some σ'
      ∧ (∃ fp, σ.freqProbes[c']? = some fp ∧ σ'.freqProbes[c']? = some fp)
      ∧ (∃ pp, σ.phaseProbes[c']? = some pp ∧ σ'.phaseProbes[c']? = some pp)
      ∧ (∀ dest : List F,
          copyFrequencyFrame σ' dest (c' : Int) = copyFrequencyFrame σ dest (c' : Int)
            ∧ copyPhaseFrame σ' dest (c' : Int) = copyPhaseFrame σ dest (c' : Int))
      ∧ σ'.window = σ.window
      ∧ σ'.amplitudeCorrectionFactor = σ.amplitudeCorrectionFactor
      ∧ σ'.listeners = σ.listeners := by
  obtain ⟨σ', hσ'⟩ := performProcessing_total E σ n c h ho hc
  obtain ⟨_, fp, pp, _, hf, hp⟩ := probes_of_prepared σ n c' h hc'
  have hne' : (c : Int) ≠ (c' : Int) := by omega
  obtain ⟨h1, h2, h3, h4, h5⟩ := performProcessing_other E σ σ' (c : Int) (c' : Int) hσ' hne'
  have ho' := performProcessing_order E σ σ' (c : Int) hσ'
  refine ⟨σ', hσ', ⟨fp, hf, ?_⟩, ⟨pp, hp, ?_⟩,
    fun dest => ⟨copyFrequencyFrame_congr σ σ' dest _ h1 ho',
      copyPhaseFrame_congr σ σ' dest _ h2 ho'⟩, h3, h4, h5⟩
  · rw [← probeAt_natCast, h1, probeAt_natCast]
    exact hf
  · rw [← probeAt_natCast, h2, probeAt_natCast]
    exact hp

/-- Witness of C7: the theorem applied to channels 1 and 0 of the sample processor. -/
theorem performProcessing_leaves_other_channels_witness :
    Prepared samplePrepared 2 ∧ 2 ≤ samplePrepared.order ∧ 1 < 2 ∧ 0 < 2 ∧ 1 ≠ 0
      ∧ ∃ σ', performProcessing sampleEnv samplePrepared 1 = some σ'
          ∧ copyFrequencyFrame σ' [0, 0, 0, 0] 0
              = copyFrequencyFrame samplePrepared [0, 0, 0, 0] 0 := by
  refine ⟨prepared_samplePrepared, by decide, by decide, by decide, by decide, ?_⟩
  obtain ⟨σ', h, _, _, hcopy, _⟩ :=
    performProcessing_leaves_other_channels sampleEnv samplePrepared 2 1 0
      prepared_samplePrepared (by decide) (by decide) (by decide) (by decide)
  exact ⟨σ', h, (hcopy [0, 0, 0, 0]).1⟩

/-- Counterexample to C7 as stated: on the prepared two-channel `FftProcessor<1>`, for the
distinct channels 1 and 0, `performProcessing (1)` does not complete: the phase frame
object it reads at `temp + 2` is off the 16-byte boundary and leaves the 4-float scratch
buffer. -/
theorem performProcessing_leaves_other_channels_counterexample :
    Reachable sampleEnv sampleSmallPrepared ∧ Prepared sampleSmallPrepared 2
      ∧ 1 < 2 ∧ 0 < 2 ∧ 1 ≠ 0
      ∧ readFrame [0, 0, 0, 0] sampleSmallPrepared.size.toNat sampleSmallPrepared.order
          = none
      ∧ ¬ ∃ σ', performProcessing sampleEnv sampleSmallPrepared 1 = some σ' := by
  refine ⟨reachable_sampleSmallPrepared, prepared_sampleSmallPrepared, by decide, by decide,
    by decide, by decide, ?_⟩
  rintro ⟨σ', h⟩
  have hnone : performProcessing sampleEnv sampleSmallPrepared 1 = none := by decide
  rw [hnone] at h
  cases h

theorem withListeners_create_listeners (ls : List Listener) (r : Nat) (l : Listener) :
    l ∈ (withListeners ls ({ ref := r, obj := AudioProbe.create } : OwnedProbe F)).obj.listeners
      ↔ l ∈ ls := by
  unfold withListeners AudioProbe.create
  simp only
  rw [mem_foldl_listenerListAdd]
  simp

/-- C4 (amended): for every state, every `prepare (spec)` with
`1 ≤ n = spec.numChannels < 2 ^ 31` completes; afterwards the frequency probe and the
phase probe of channel `n - 1` each have exactly the listeners registered on the
processor attached, and the frequency and phase probes of every channel `c < n - 1` have
no listener attached. -/
theorem prepare_wires_last_channel (E : Env F) (σ : FftProcessor F) (spec : ProcessSpec)
    (h1 : 1 ≤ spec.numChannels) (h2 : spec.numChannels < 2147483648) :
    WiredToLastChannel E σ spec := by
  have hi : (spec.numChannels : Int) - 1 = ((spec.numChannels - 1 : Nat) : Int) := by omega
  have hlen1 : spec.numChannels - 1
      < (freshProbes σ.nextProbe spec.numChannels : List (OwnedProbe F)).length := by
    rw [freshProbes_length]; omega
  have hlen2 : spec.numChannels - 1
      < (freshProbes (σ.nextProbe + 1) spec.numChannels : List (OwnedProbe F)).length := by
    rw [freshProbes_length]; omega
  refine ⟨_,
    withListeners σ.listeners
      { ref := σ.nextProbe + 2 * (spec.numChannels - 1), obj := AudioProbe.create },
    withListeners σ.listeners
      { ref := σ.nextProbe + 1 + 2 * (spec.numChannels - 1), obj := AudioProbe.create },
    prepare_of_channels E σ spec h1 h2, ?_, ?_, ?_, ?_, ?_⟩
  · rw [hi, probeAt_natCast]
    exact List.getElem?_set_self hlen1
  · rw [hi, probeAt_natCast]
    exact List.getElem?_set_self hlen2
  · intro l
    exact withListeners_create_listeners σ.listeners _ l
  · intro l
    exact withListeners_create_listeners σ.listeners _ l
  · intro c hc
    have hne : spec.numChannels - 1 ≠ c := by omega
    refine ⟨{ ref := σ.nextProbe + 2 * c, obj := AudioProbe.create },
      { ref := σ.nextProbe + 1 + 2 * c, obj := AudioProbe.create }, ?_, ?_, ?_, ?_⟩
    · rw [probeAt_natCast]
      show ((freshProbes σ.nextProbe spec.numChannels).set _ _)[c]? = _
      rw [List.getElem?_set_ne hne]
      exact freshProbes_getElem? _ _ c (by omega)
    · rw [probeAt_natCast]
      show ((freshProbes (σ.nextProbe + 1) spec.numChannels).set _ _)[c]? = _
      rw [List.getElem?_set_ne hne]
      exact freshProbes_getElem? _ _ c (by omega)
    · rfl
    · rfl

/-- Witness of C4: the theorem applied to a two-channel prepare with one listener. -/
theorem prepare_wires_last_channel_witness :
    1 ≤ (ProcessSpec.mk 2).numChannels ∧ (ProcessSpec.mk 2).numChannels < 2147483648
      ∧ WiredToLastChannel sampleEnv (addListener sampleConstructed 7) (ProcessSpec.mk 2) :=
  ⟨by decide, by decide,
    prepare_wires_last_channel sampleEnv (addListener sampleConstructed 7) (ProcessSpec.mk 2)
      (by decide) (by decide)⟩

/-- Counterexample to C4 as stated: for `numChannels = 4294967295 ≥ 1` and no listener,
`static_cast<int>` gives -1, `prepare` completes without allocating a probe, and there
is no probe of channel `numChannels - 1`. -/
theorem prepare_wires_last_channel_counterexample :
    1 ≤ (ProcessSpec.mk 4294967295).numChannels
      ∧ ¬ WiredToLastChannel sampleEnv sampleConstructed (ProcessSpec.mk 4294967295) := by
  refine ⟨by decide, ?_⟩
  intro h
  obtain ⟨σ', fp, pp, hσ', hf, _⟩ := h
  have key : (prepare sampleEnv sampleConstructed (ProcessSpec.mk 4294967295)).map
      (fun s => s.freqProbes) = some [] := by decide
  rw [hσ'] at key
  simp only [Option.map_some', Option.some.injEq] at key
  rw [key, probeAt_nil] at hf
  cases hf

/-- C5 (amended): for every reachable state and every spec with
`n = spec.numChannels < 2 ^ 31` and with `n ≥ 1` or no listener registered, `prepare`
completes; afterwards the processor holds exactly `n` frequency probes and exactly `n`
phase probes, none of which is a probe held before the call; and in every reachable
state the number of frequency probes equals the number of phase probes. -/
theorem prepare_allocates_channel_probes (E : Env F) (σ : FftProcessor F)
    (spec : ProcessSpec) (hσ : Reachable E σ) (h2 : spec.numChannels < 2147483648)
    (hok : 1 ≤ spec.numChannels ∨ σ.listeners = []) :
    AllocatesChannelProbes E σ spec ∧ σ.freqProbes.length = σ.phaseProbes.length := by
  have hi := invariant_of_reachable E σ hσ
  refine ⟨?_, hi.probes_length⟩
  have hex : ∃ σ', prepare E σ spec = some σ' := by
    rcases hok with h1 | hl
    · exact ⟨_, prepare_of_channels E σ spec h1 h2⟩
    · exact ⟨_, prepare_of_no_listeners E σ spec hl⟩
  obtain ⟨σ', hσ'⟩ := hex
  obtain ⟨_, hf, hp⟩ := prepare_some E σ σ' spec hσ'
  rw [castChannels_toNat spec h2] at hf hp
  refine ⟨σ', hσ', ?_, ?_, ?_⟩
  · rw [length_eq_of_map_ref_eq hf, freshProbes_length]
  · rw [length_eq_of_map_ref_eq hp, freshProbes_length]
  · intro p hp' q hq'
    have hq : q.ref < σ.nextProbe := by
      rcases List.mem_append.mp hq' with h | h
      · exact hi.freq_allocated q h
      · exact hi.phase_allocated q h
    have hpr : σ.nextProbe ≤ p.ref := by
      rcases List.mem_append.mp hp' with h | h
      · obtain ⟨r, hr, hrr⟩ := exists_ref_of_map_ref_eq hf h
        obtain ⟨j, _, hj⟩ := freshProbes_mem _ _ r hr
        rw [← hrr, hj]
        show σ.nextProbe ≤ σ.nextProbe + 2 * j
        omega
      · obtain ⟨r, hr, hrr⟩ := exists_ref_of_map_ref_eq hp h
        obtain ⟨j, _, hj⟩ := freshProbes_mem _ _ r hr
        rw [← hrr, hj]
        show σ.nextProbe ≤ σ.nextProbe + 1 + 2 * j
        omega
    omega

/-- Witness of C5: the theorem applied to a second prepare of the sample processor. -/
theorem prepare_allocates_channel_probes_witness :
    Reachable sampleEnv samplePrepared ∧ (ProcessSpec.mk 3).numChannels < 2147483648
      ∧ 1 ≤ (ProcessSpec.mk 3).numChannels
      ∧ AllocatesChannelProbes sampleEnv samplePrepared (ProcessSpec.mk 3) :=
  ⟨reachable_samplePrepared, by decide, by decide,
    (prepare_allocates_channel_probes sampleEnv samplePrepared (ProcessSpec.mk 3)
      reachable_samplePrepared (by decide) (Or.inl (by decide))).1⟩

/-- Counterexample to C5 as stated: for `numChannels = 4294967295` and no listener,
`static_cast<int>` gives -1, the allocation loop does not run and `prepare` leaves the
processor without any probe; and for `numChannels = 0` with a listener registered
`prepare` does not complete. -/
theorem prepare_allocates_channel_probes_counterexample :
    Reachable sampleEnv sampleConstructed
      ∧ ¬ AllocatesChannelProbes sampleEnv sampleConstructed (ProcessSpec.mk 4294967295)
      ∧ Reachable sampleEnv (addListener sampleConstructed 7)
      ∧ ¬ AllocatesChannelProbes sampleEnv (addListener sampleConstructed 7)
            (ProcessSpec.mk 0) := by
  refine ⟨reachable_sampleConstructed, ?_,
    Reachable.addListener _ 7 reachable_sampleConstructed, ?_⟩
  · intro h
    obtain ⟨σ', hσ', hf, _⟩ := h
    have key : (prepare sampleEnv sampleConstructed (ProcessSpec.mk 4294967295)).map
        (fun s => s.freqProbes.length) = some 0 := by decide
    rw [hσ'] at key
    simp only [Option.map_some', Option.some.injEq] at key
    rw [key] at hf
    exact absurd hf (by decide)
  · intro h
    obtain ⟨σ', hσ', _⟩ := h
    have key : prepare sampleEnv (addListener sampleConstructed 7) (ProcessSpec.mk 0)
        = none := by decide
    rw [key] at hσ'
    cases hσ'

theorem ownsLoop_iff (E : Env F) (audioProbe : Nat) (arr : List (OwnedProbe F)) :
    ownsLoop E audioProbe arr = true ↔ ∃ q ∈ arr, E.address q.ref = audioProbe := by
  induction arr with
  | nil => simp [ownsLoop]
  | cons p rest ih =>
    unfold ownsLoop
    by_cases h : audioProbe = E.address p.ref
    · rw [if_pos h]
      simp only [true_iff]
      exact ⟨p, List.mem_cons_self p rest, h.symm⟩
    · rw [if_neg h, ih]
      constructor
      · rintro ⟨q, hq, hqr⟩
        exact ⟨q, List.mem_cons_of_mem p hq, hqr⟩
      · rintro ⟨q, hq, hqr⟩
        rcases List.mem_cons.mp hq with hqp | hq'
        · subst hqp
          exact absurd hqr.symm h
        · exact ⟨q, hq', hqr⟩

theorem ownsProbe_eq_true_iff (E : Env F) (σ : FftProcessor F) (audioProbe : Nat) :
    ownsProbe E σ audioProbe = true
      ↔ (∃ q ∈ σ.freqProbes, E.address q.ref = audioProbe)
          ∨ (∃ q ∈ σ.phaseProbes, E.address q.ref = audioProbe) := by
  unfold ownsProbe
  simp only
  rw [← ownsLoop_iff, ← ownsLoop_iff]
  cases ownsLoop E audioProbe σ.freqProbes <;> simp

theorem ownsProbe_eq_false_iff (E : Env F) (σ : FftProcessor F) (audioProbe : Nat) :
    ownsProbe E σ audioProbe = false
      ↔ ∀ q ∈ σ.freqProbes ++ σ.phaseProbes, E.address q.ref ≠ audioProbe := by
  constructor
  · intro hfalse q hq heq
    have htrue : ownsProbe E σ audioProbe = true := by
      rw [ownsProbe_eq_true_iff]
      rcases List.mem_append.mp hq with h | h
      · exact Or.inl ⟨q, h, heq⟩
      · exact Or.inr ⟨q, h, heq⟩
    rw [hfalse] at htrue
    cases htrue
  · intro hall
    cases hown : ownsProbe E σ audioProbe with
    | false => rfl
    | true =>
      exfalso
      rcases (ownsProbe_eq_true_iff E σ audioProbe).mp hown with ⟨q, hq, hqa⟩ | ⟨q, hq, hqa⟩
      · exact hall q (List.mem_append.mpr (Or.inl hq)) hqa
      · exact hall q (List.mem_append.mpr (Or.inr hq)) hqa

theorem setWindowingMethod_probes (E : Env F) (σ σ' : FftProcessor F) (m : WindowingMethod)
    (h : setWindowingMethod E σ m = some σ') :
    σ'.freqProbes = σ.freqProbes ∧ σ'.phaseProbes = σ.phaseProbes := by
  unfold setWindowingMethod at h
  simp only at h
  split at h
  · cases h
  · split at h
    · cases h
    · cases h
      exact ⟨rfl, rfl⟩

theorem construct_probes (E : Env F) (order : Nat) (σ : FftProcessor F)
    (h : construct E order = some σ) : σ.freqProbes = [] ∧ σ.phaseProbes = [] := by
  unfold construct at h
  simp only at h
  split at h
  · cases h
  · split at h
    · cases h
    · exact setWindowingMethod_probes E _ σ _ h

theorem unprepared_probes (E : Env F) (σ : FftProcessor F) (h : Unprepared E σ) :
    σ.freqProbes = [] ∧ σ.phaseProbes = [] := by
  induction h with
  | construct order σ hc => exact construct_probes E order σ hc
  | setWindowingMethod σ σ' m _ hs ih =>
    obtain ⟨h1, h2⟩ := setWindowingMethod_probes E σ σ' m hs
    exact ⟨h1.trans ih.1, h2.trans ih.2⟩
  | addListener σ l _ ih => exact ih
  | removeListener σ l _ ih => exact ih

/-- C6 (amended): in every state and for every pointer `a`, `ownsProbe (a)` returns true
if and only if `a` is the address of one of the processor's current frequency probes or
of one of its current phase probes; it returns false for every `a` before the first
prepare; and after a prepare, a probe owned before it is none of the current probes, and
`ownsProbe` returns false for the pointer to it exactly when no probe allocated since has
been given its address. -/
theorem ownsProbe_iff (E : Env F) :
    (∀ (σ : FftProcessor F) (a : Nat),
        ownsProbe E σ a = true
          ↔ (∃ q ∈ σ.freqProbes, E.address q.ref = a)
              ∨ (∃ q ∈ σ.phaseProbes, E.address q.ref = a))
    ∧ (∀ (σ : FftProcessor F) (a : Nat), Unprepared E σ → ownsProbe E σ a = false)
    ∧ (∀ (σ σ' : FftProcessor F) (spec : ProcessSpec) (p : OwnedProbe F),
        Reachable E σ → prepare E σ spec = some σ' →
        p ∈ σ.freqProbes ++ σ.phaseProbes →
        (∀ q ∈ σ'.freqProbes ++ σ'.phaseProbes, q.ref ≠ p.ref)
          ∧ (ownsProbe E σ' (E.address p.ref) = false
              ↔ ∀ q ∈ σ'.freqProbes ++ σ'.phaseProbes,
                  E.address q.ref ≠ E.address p.ref)) := by
  refine ⟨ownsProbe_eq_true_iff E, ?_, ?_⟩
  · intro σ a hσ
    obtain ⟨h1, h2⟩ := unprepared_probes E σ hσ
    rw [ownsProbe_eq_false_iff, h1, h2]
    intro q hq
    cases hq
  · intro σ σ' spec p hσ hσ' hp
    refine ⟨?_, ownsProbe_eq_false_iff E σ' (E.address p.ref)⟩
    have hi := invariant_of_reachable E σ hσ
    obtain ⟨_, hf, hph⟩ := prepare_some E σ σ' spec hσ'
    have hlt : p.ref < σ.nextProbe := by
      rcases List.mem_append.mp hp with h | h
      · exact hi.freq_allocated p h
      · exact hi.phase_allocated p h
    intro q hq heq
    rcases List.mem_append.mp hq with h | h
    · obtain ⟨r, hr, hrr⟩ := exists_ref_of_map_ref_eq hf h
      obtain ⟨j, _, hj⟩ := freshProbes_mem _ _ r hr
      rw [hj] at hrr
      have : σ.nextProbe + 2 * j = q.ref := hrr
      omega
    · obtain ⟨r, hr, hrr⟩ := exists_ref_of_map_ref_eq hph h
      obtain ⟨j, _, hj⟩ := freshProbes_mem _ _ r hr
      rw [hj] at hrr
      have : σ.nextProbe + 1 + 2 * j = q.ref := hrr
      omega

/-- Witness of C6: the theorem applied to the sample processors: no pointer is owned
before the first prepare, and after a further prepare of the prepared processor the probe
with serial number 3, owned before, is none of the current probes. -/
theorem ownsProbe_iff_witness :
    Unprepared sampleEnv sampleConstructed
      ∧ ownsProbe sampleEnv sampleConstructed 3 = false
      ∧ Reachable sampleEnv samplePrepared
      ∧ ∃ σ', prepare sampleEnv samplePrepared (ProcessSpec.mk 1) = some σ'
          ∧ ∀ q ∈ σ'.freqProbes ++ σ'.phaseProbes, q.ref ≠ 3 := by
  have hu : Unprepared sampleEnv sampleConstructed := Unprepared.construct 2 _ construct_sample
  obtain ⟨σ', hσ'⟩ :
      ∃ σ', prepare sampleEnv samplePrepared (ProcessSpec.mk 1) = some σ' :=
    ⟨_, prepare_of_channels sampleEnv samplePrepared (ProcessSpec.mk 1) (by decide)
      (by decide)⟩
  exact ⟨hu, (ownsProbe_iff sampleEnv).2.1 sampleConstructed 3 hu, reachable_samplePrepared,
    σ', hσ',
    ((ownsProbe_iff sampleEnv).2.2 samplePrepared σ' (ProcessSpec.mk 1)
      { ref := 3, obj := { frame := none, generation := 0, listeners := [7] } }
      reachable_samplePrepared hσ' (by decide)).1⟩

/-- Counterexample to C6 as stated: the prepared sample processor owns the probes with
serial numbers 0, 2, 1, 3 at the addresses 0, 2, 1, 3. A further `prepare` for one channel
deletes them and allocates the probes 4 and 5, to which the allocator hands back the
addresses 0 and 1. The probe 0 was owned only before that prepare, and `ownsProbe` returns
true for the pointer to it. -/
theorem ownsProbe_iff_counterexample :
    Reachable sampleEnv samplePrepared
      ∧ (samplePrepared.freqProbes ++ samplePrepared.phaseProbes).map
            (fun q => (q.ref, sampleEnv.address q.ref))
          = [(0, 0), (2, 2), (1, 1), (3, 3)]
      ∧ ownsProbe sampleEnv samplePrepared (sampleEnv.address 0) = true
      ∧ (prepare sampleEnv samplePrepared (ProcessSpec.mk 1)).map
            (fun s => ((s.freqProbes ++ s.phaseProbes).map
                          (fun q => (q.ref, sampleEnv.address q.ref)),
                       ownsProbe sampleEnv s (sampleEnv.address 0)))
          = some ([(4, 0), (5, 1)], true) :=
  ⟨reachable_samplePrepared, by decide, by decide, by decide⟩

/-- C8 (the code at the failing input): `setWindowingMethod` does not use its argument;
whatever method is passed it fills the table of `hann`, for instance when
`rectangular` is passed to the sample processor, whose `rectangular` table differs. -/
theorem setWindowingMethod_fills_hann :
    (∀ (G : Type) (E : Env G) (σ : FftProcessor G) (m : WindowingMethod),
        setWindowingMethod E σ m = setWindowingMethod E σ WindowingMethod.hann)
    ∧ (setWindowingMethod sampleEnv sampleConstructed WindowingMethod.rectangular).map
          (fun s => s.window) = some (windowTable sampleEnv WindowingMethod.hann 4)
    ∧ windowTable sampleEnv WindowingMethod.hann 4
        ≠ windowTable sampleEnv WindowingMethod.rectangular 4 :=
  ⟨fun _ _ _ _ => rfl, by decide, by decide⟩

theorem accessesInBounds_of_sized (σ : FftProcessor F) (h : Sized σ) (ho : 2 ≤ σ.order) :
    AccessesInBounds σ := by
  have hN := size_toNat_of_sized σ h
  have h1 := frameExtent_eq σ.order ho h.frame_eq
  have h2 := h.temp_length
  have h3 := h.window_length
  have h4 := two_pow_mod_four σ.order ho
  exact
    { copy_in_temp := by omega
      multiply_in_temp := by omega
      multiply_in_window := by omega
      freq_frame_in_temp := by omega
      phase_frame_aligned := by omega
      phase_frame_in_temp := by omega }

/-- C9 (amended): for every order from 2 to 29 the constructor completes and sets the
fixed block size, the window length and the frame length to `2 ^ order` and the scratch
buffer length to `2 * 2 ^ order`; with these sizes every access `performProcessing` makes
to the scratch and window buffers is in bounds, the frame objects included; and for order
12 the block size is 4096. -/
theorem constructor_sizes (E : Env F) (order : Nat) (h2 : 2 ≤ order) (h : order ≤ 29) :
    ConstructorSizes E order
      ∧ (∀ τ : FftProcessor F, Sized τ → 2 ≤ τ.order → AccessesInBounds τ)
      ∧ (∃ σ, construct E 12 = some σ ∧ σ.maxBlockSize = 4096 ∧ σ.size = 4096) := by
  have hs : shiftLeftOne order = 2 ^ order := shiftLeftOne_eq order (by omega)
  have hsized : Sized ({ initial E order with
      temp := List.replicate (2 * 2 ^ order) E.zero
      window := windowTable E WindowingMethod.hann (2 ^ order)
      amplitudeCorrectionFactor :=
        E.div E.two ((windowTable E WindowingMethod.hann (2 ^ order)).foldl E.add E.zero) }
      : FftProcessor F) :=
    { size_eq := hs
      maxBlockSize_eq := hs
      frame_eq := frameLength_eq order (by omega)
      temp_length := List.length_replicate _ _
      window_length := windowTable_length E _ _ }
  refine ⟨⟨_, construct_eq E order h, rfl, hsized,
      frameExtent_eq order h2 (frameLength_eq order (by omega)),
      accessesInBounds_of_sized _ hsized h2⟩,
    accessesInBounds_of_sized, _, construct_eq E 12 (by omega), ?_, ?_⟩
  · show shiftLeftOne 12 = 4096
    rw [shiftLeftOne_eq 12 (by omega)]
    rfl
  · show shiftLeftOne 12 = 4096
    rw [shiftLeftOne_eq 12 (by omega)]
    rfl

/-- Witness of C9: the theorem applied to the order of the analyser. -/
theorem constructor_sizes_witness : 2 ≤ 12 ∧ 12 ≤ 29 ∧ ConstructorSizes sampleEnv 12 :=
  ⟨by decide, by decide, (constructor_sizes sampleEnv 12 (by decide) (by decide)).1⟩

/-- Counterexample to C9 as stated: for orders 0 and 1 an `FftFrame` object spans 4
floats, not `2 ^ order`, so the frame objects `performProcessing` reads leave the scratch
buffer of 2 or 4 floats; for order 30 the scratch size `size * 2` is `2 ^ 31`, which no
`int` holds: the value passed to `setSize` is negative and the constructor does not
complete. -/
theorem constructor_sizes_counterexample :
    frameExtent 0 = 4 ∧ frameExtent 1 = 4
      ∧ ¬ ConstructorSizes sampleEnv 0 ∧ ¬ ConstructorSizes sampleEnv 1
      ∧ toInt32 (shiftLeftOne 30 * 2) = -2147483648 ∧ construct sampleEnv 30 = none
      ∧ ¬ ConstructorSizes sampleEnv 30 := by
  have hnone : construct sampleEnv 30 = none := by decide
  refine ⟨by decide, by decide, ?_, ?_, by decide, hnone, ?_⟩
  · rintro ⟨σ, _, _, _, he, _⟩
    exact absurd he (by decide)
  · rintro ⟨σ, _, _, _, he, _⟩
    exact absurd he (by decide)
  · intro h
    obtain ⟨σ, hσ, _⟩ := h
    rw [hnone] at hσ
    cases hσ

theorem wiringIndexInRange_characterised (E : Env F) (σ : FftProcessor F) (spec : ProcessSpec)
    (h32 : spec.numChannels < 4294967296) :
    WiringIndexInRange E σ spec
      ↔ (1 ≤ spec.numChannels ∧ spec.numChannels < 2147483648) ∨ σ.listeners = [] := by
  unfold WiringIndexInRange
  rw [allocateProbes_eq]
  constructor
  · rintro (hl | ⟨hf, _⟩)
    · exact Or.inr hl
    · by_cases hr : 1 ≤ spec.numChannels ∧ spec.numChannels < 2147483648
      · exact Or.inl hr
      · exfalso
        have h0 := castChannels_toNat_zero spec hr h32
        have hnone : probeAt (freshProbes σ.nextProbe 0 : List (OwnedProbe F))
            (lastChannel spec) = none := probeAt_nil _
        generalize lastChannel spec = i at hf hnone
        rw [h0] at hf
        simp only at hf
        rw [hnone] at hf
        cases hf
  · rintro (⟨h1, h2⟩ | hl)
    · right
      simp only
      rw [castChannels_toNat spec h2, lastChannel_of_pos spec h1 h2, probeAt_natCast,
        probeAt_natCast, freshProbes_getElem? _ _ _ (by omega),
        freshProbes_getElem? _ _ _ (by omega)]
      exact ⟨rfl, rfl⟩
    · exact Or.inl hl

/-- C10 (amended): for every state and every spec (`numChannels` a `uint32`), every index
`prepare` uses to select a probe for listener wiring is within the freshly allocated
probe arrays if and only if `1 ≤ numChannels < 2 ^ 31` or no listener is registered, and
`prepare` completes exactly in that case; with `numChannels = 0` and at least one
registered listener, `lastChannel` is -1, no probe has that index and `prepare` does not
complete. -/
theorem wiring_index_in_range_iff (E : Env F) (σ : FftProcessor F) (spec : ProcessSpec)
    (h32 : spec.numChannels < 4294967296) :
    (WiringIndexInRange E σ spec
        ↔ (1 ≤ spec.numChannels ∧ spec.numChannels < 2147483648) ∨ σ.listeners = [])
    ∧ ((prepare E σ spec).isSome = true ↔ WiringIndexInRange E σ spec)
    ∧ (spec.numChannels = 0 → σ.listeners ≠ [] →
        lastChannel spec = -1
          ∧ probeAt (allocateProbes E σ spec).freqProbes (lastChannel spec) = none
          ∧ probeAt (allocateProbes E σ spec).phaseProbes (lastChannel spec) = none
          ∧ prepare E σ spec = none) := by
  have hiff := wiringIndexInRange_characterised E σ spec h32
  refine ⟨hiff, ?_, ?_⟩
  · rw [hiff]
    by_cases hl : σ.listeners = []
    · rw [prepare_of_no_listeners E σ spec hl]
      simp [hl]
    · by_cases hr : 1 ≤ spec.numChannels ∧ spec.numChannels < 2147483648
      · rw [prepare_of_channels E σ spec hr.1 hr.2]
        simp [hr]
      · rw [prepare_of_no_probes E σ spec hl (castChannels_toNat_zero spec hr h32)]
        simp [hl, hr]
  · intro h0 hl
    have hlast := lastChannel_zero spec h0
    refine ⟨hlast, ?_, ?_, ?_⟩
    · rw [hlast]
      exact probeAt_of_neg _ _ (by decide)
    · rw [hlast]
      exact probeAt_of_neg _ _ (by decide)
    · exact prepare_of_no_probes E σ spec hl
        (castChannels_toNat_zero spec (by omega) h32)

/-- Witness of C10: the theorem applied to a prepare for no channel with one listener. -/
theorem wiring_index_in_range_iff_witness :
    (ProcessSpec.mk 0).numChannels < 4294967296
      ∧ ¬ WiringIndexInRange sampleEnv (addListener sampleConstructed 7) (ProcessSpec.mk 0)
      ∧ prepare sampleEnv (addListener sampleConstructed 7) (ProcessSpec.mk 0) = none := by
  have h := wiring_index_in_range_iff sampleEnv (addListener sampleConstructed 7)
    (ProcessSpec.mk 0) (by decide)
  refine ⟨by decide, ?_, (h.2.2 rfl (by decide)).2.2.2⟩
  rw [h.1]
  decide

/-- Counterexample to C10 as stated: for `numChannels = 4294967295 ≥ 1` and one listener,
`static_cast<int>` gives -1, no probe is allocated, `lastChannel` is -2 and the index
is out of range. -/
theorem wiring_index_in_range_iff_counterexample :
    ¬ (WiringIndexInRange sampleEnv (addListener sampleConstructed 7)
          (ProcessSpec.mk 4294967295)
        ↔ 1 ≤ (ProcessSpec.mk 4294967295).numChannels
            ∨ (addListener sampleConstructed 7).listeners = []) := by
  intro h
  have hin := h.mpr (Or.inl (by decide))
  rw [wiringIndexInRange_characterised sampleEnv _ _ (by decide)] at hin
  revert hin
  decide

/-! ## Listeners attached to probes -/

end FftProcessor

end DspTestbench
